import Mathlib

/-!
Verification development for the inventory-manager repository.

The model is a shallow embedding of the Python source:

* `src/inventory.py` — the ledger engine (`ensure_period`, `update_stock`,
  `record_transaction`, `summarize`) and the schema upgrader
  (`_ensure_new_schema`).
* `src/inventory_gui.py` — the reconciliation pull
  (`_build_stock_snapshot`, `sync_google_drive`).

Python dictionaries are modeled as insertion-ordered association lists
(`List (κ × α)`): lookup returns the first binding, assignment replaces a
binding in place or appends a fresh one at the end, mirroring CPython dict
semantics.  Machine integers are `Int` (Python ints are unbounded).
`datetime` values are represented by their rendered strings (`isoformat`,
`"%Y-%m"`, ...), which is how every embedded operation consumes them.

Two document models are used:

* a structured `Doc` for documents in the current schema — the shape every
  ledger operation itself establishes; on these, `_ensure_new_schema` is
  embedded by `ensureNewSchemaS` (the only rule of the upgrader that can
  fire on a current-schema value is the empty-category default);
* a raw JSON-like `RVal`/`RObj` model for the schema upgrader itself
  (`ensureNewSchemaRaw`), which must be studied on arbitrary malformed
  documents.
-/

namespace Inv

section AList

variable {κ : Type} {α : Type} [DecidableEq κ]

/-- `m.get k` — Python `m[k]` / `m.get(k)`: the first binding of `k`. -/
def aget : List (κ × α) → κ → Option α
  | [], _ => none
  | (k', v) :: t, k => if k' = k then some v else aget t k

/-- Python `m.get(k, d)`. -/
def agetD (m : List (κ × α)) (k : κ) (d : α) : α :=
  (aget m k).getD d

/-- Python `m[k] = v`: replace the binding in place, or append it. -/
def aset : List (κ × α) → κ → α → List (κ × α)
  | [], k, v => [(k, v)]
  | (k', v') :: t, k, v => if k' = k then (k, v) :: t else (k', v') :: aset t k v

/-- Python `m.setdefault(k, v)` (the resulting dictionary). -/
def asetd (m : List (κ × α)) (k : κ) (v : α) : List (κ × α) :=
  if (aget m k).isSome then m else m ++ [(k, v)]

@[simp] theorem aget_nil (k : κ) : aget ([] : List (κ × α)) k = none := rfl

theorem aget_aset_self (m : List (κ × α)) (k : κ) (v : α) :
    aget (aset m k v) k = some v := by
  induction m with
  | nil => simp [aget, aset]
  | cons h t ih =>
      obtain ⟨k', v'⟩ := h
      by_cases hk : k' = k <;> simp [aget, aset, hk, ih]

theorem aget_aset_ne (m : List (κ × α)) (k k' : κ) (v : α) (h : k' ≠ k) :
    aget (aset m k v) k' = aget m k' := by
  induction m with
  | nil => simp [aget, aset, Ne.symm h]
  | cons p t ih =>
      obtain ⟨k₀, v₀⟩ := p
      by_cases hk : k₀ = k
      · subst hk
        simp [aget, aset, Ne.symm h]
      · simp only [aset, if_neg hk]
        by_cases hk' : k₀ = k' <;> simp [aget, hk', ih]

theorem aset_self (m : List (κ × α)) (k : κ) (v : α) (h : aget m k = some v) :
    aset m k v = m := by
  induction m with
  | nil => simp [aget] at h
  | cons p t ih =>
      obtain ⟨k₀, v₀⟩ := p
      by_cases hk : k₀ = k
      · subst hk
        simp [aget] at h
        simp [aset, h]
      · simp [aget, hk] at h
        simp [aset, hk, ih h]

theorem aget_asetd_self (m : List (κ × α)) (k : κ) (v : α) :
    aget (asetd m k v) k = some (agetD m k v) := by
  unfold asetd agetD
  cases hm : aget m k with
  | some w => simp [hm]
  | none =>
      simp only [hm, Option.isSome_none, Bool.false_eq_true, if_false, Option.getD_none]
      induction m with
      | nil => simp [aget]
      | cons p t ih =>
          obtain ⟨k₀, v₀⟩ := p
          by_cases hk : k₀ = k
          · simp [aget, hk] at hm
          · simp [aget, hk] at hm ⊢
            exact ih hm

theorem aget_asetd_ne (m : List (κ × α)) (k k' : κ) (v : α) (h : k' ≠ k) :
    aget (asetd m k v) k' = aget m k' := by
  unfold asetd
  cases hm : aget m k with
  | some w => simp [hm]
  | none =>
      simp only [hm, Option.isSome_none, Bool.false_eq_true, if_false]
      induction m with
      | nil => simp [aget, Ne.symm h]
      | cons p t ih =>
          obtain ⟨k₀, v₀⟩ := p
          by_cases hk : k₀ = k
          · simp [aget, hk] at hm
          · simp [aget, hk] at hm
            by_cases hk' : k₀ = k' <;> simp [aget, hk', ih hm]

theorem asetd_of_isSome (m : List (κ × α)) (k : κ) (v : α) (h : (aget m k).isSome) :
    asetd m k v = m := by
  simp [asetd, h]

theorem aset_eq_append (m : List (κ × α)) (k : κ) (v : α) (h : aget m k = none) :
    aset m k v = m ++ [(k, v)] := by
  induction m with
  | nil => simp [aset]
  | cons p t ih =>
      obtain ⟨k₀, v₀⟩ := p
      by_cases hk : k₀ = k
      · simp [aget, hk] at h
      · simp [aget, hk] at h
        simp [aset, hk, ih h]

end AList

/-! ## Structured document model (current schema) -/

/-- `stock[item][option][location] = quantity` innermost level. -/
abbrev LocMap := List (String × Int)

abbrev OptMap := List (String × LocMap)

/-- `{item: {option: {location: qty}}}` — current-schema stock layout. -/
abbrev StockMap := List (String × OptMap)

/-- One `item_metadata` entry.  An absent `artist`/`category`/`option` key is
represented by `""` (the code only ever tests these fields for truthiness). -/
structure MetaInfo where
  artist : String := ""
  category : String := ""
  lastOpt : String := ""
  last_audit : List (String × String) := []
  deriving DecidableEq, Repr

/-- One `periods` entry: `{"opening_stock": ..., "created_at": ...}`. -/
structure PeriodInfo where
  opening_stock : StockMap
  created_at : String
  deriving DecidableEq, Repr

/-- A history entry — the persisted form `Transaction.to_dict()` produces. -/
structure Entry where
  type : String
  artist : String
  item : String
  category : String
  option : String
  location : String
  quantity : Int
  timestamp : String
  actor : String
  period : String
  day : String
  year : String
  description : String
  event : Bool
  event_id : String
  event_open : Bool
  deriving DecidableEq, Repr

/-- The root document (`load_data`'s `_empty()` shape).  `last_updated` and
`activity_log` are not read or written by any embedded operation and are
omitted. -/
structure Doc where
  current_period : Option String
  periods : List (String × PeriodInfo)
  stock : StockMap
  history : List Entry
  item_metadata : List (String × MetaInfo)
  deriving DecidableEq, Repr

/-- `load_data`'s `_empty()` document. -/
def emptyDoc : Doc :=
  { current_period := none, periods := [], stock := [], history := [], item_metadata := [] }

/-- The in-memory `Transaction` dataclass.  `timestamp` is the rendered
`isoformat()` string and `period`/`day`/`year` are the renderings of the same
instant that the `@property` accessors produce (`"%Y-%m"`, `date().isoformat()`,
`"%Y"`). -/
structure Tx where
  type : String
  artist : String
  item : String
  option : String
  location : String
  quantity : Int
  timestamp : String
  category : String := "album"
  actor : String := ""
  description : String := ""
  event : Bool := false
  event_id : String := ""
  event_open : Bool := false
  period : String
  day : String := ""
  year : String := ""
  deriving DecidableEq, Repr

/-- `Transaction.to_dict()`. -/
def txToDict (t : Tx) : Entry :=
  { type := t.type, artist := t.artist, item := t.item, category := t.category
    option := t.option, location := t.location, quantity := t.quantity
    timestamp := t.timestamp, actor := t.actor, period := t.period, day := t.day
    year := t.year, description := t.description, event := t.event
    event_id := t.event_id, event_open := t.event_open }

/-- Lexicographic comparison of code-point lists — Python string `<`. -/
def charListLt : List Char → List Char → Bool
  | _, [] => false
  | [], _ :: _ => true
  | a :: as, b :: bs => if a < b then true else if b < a then false else charListLt as bs

/-- Python string `<` (lexicographic on code points).  Defined over `.data`
so that it evaluates by kernel reduction. -/
def strLt (a b : String) : Bool := charListLt a.data b.data

/-- ASCII case folding — what `str.lower()` does on the strings this program
compares (`"md"`, `"album"`, `"merch"` and the Korean aliases, which have no
case). -/
def charLower (c : Char) : Char :=
  if 'A' ≤ c ∧ c ≤ 'Z' then Char.ofNat (c.toNat + 32) else c

def strLower (s : String) : String := ⟨s.data.map charLower⟩

/-- Whitespace stripped by `str.strip()`. -/
def isPySpace (c : Char) : Bool :=
  c = ' ' ∨ c = '\t' ∨ c = '\n' ∨ c = '\r' ∨ c = '\x0b' ∨ c = '\x0c'

/-- `str.strip()`. -/
def strTrim (s : String) : String :=
  ⟨((s.data.dropWhile isPySpace).reverse.dropWhile isPySpace).reverse⟩

/-- `_option_key(option)` = `option or ""` (on strings). -/
def optionKey (o : String) : String :=
  if o = "" then "" else o

theorem optionKey_eq (o : String) : optionKey o = o := by
  unfold optionKey
  by_cases h : o = "" <;> simp [h]

/-- `normalize_category` from `src/inventory.py`. -/
def normalizeCategory (value : String) : String :=
  if value = "" then "album"
  else
    let cleaned := strLower (strTrim value)
    if cleaned = "md" ∨ cleaned = "md/굿즈" ∨ cleaned = "merch" ∨ cleaned = "굿즈" then "md"
    else if cleaned = "album" ∨ cleaned = "앨범" then "album"
    else if cleaned = "" then "album"
    else cleaned

/-- Rule 6 of `_ensure_new_schema`: default a falsy `category` to `"album"`. -/
def fixCategory (info : MetaInfo) : MetaInfo :=
  if info.category = "" then { info with category := "album" } else info

/-- `_ensure_new_schema` restricted to current-schema documents.  On a `Doc`
every upgrader rule is the identity except rule 6: a metadata entry whose
`category` is falsy is defaulted to `"album"` (the option-wrapping rules
cannot fire because option maps never have integer values, `last_audit` is
always a mapping, and history entries always carry every field). -/
def ensureNewSchemaS (d : Doc) : Doc :=
  { d with item_metadata := d.item_metadata.map fun p => (p.1, fixCategory p.2) }

/-- The guard chain of `ensure_period`, after its `_ensure_new_schema` call. -/
def ensurePeriodCore (d : Doc) (period : String) (now : String) : Doc :=
  if (aget d.periods period).isSome then d
  else if (match d.current_period with
           | some c => decide (c ≠ "") && strLt period c
           | none => false) then d
  else if d.current_period = some period then d
  else
    { d with
        periods := aset d.periods period { opening_stock := d.stock, created_at := now }
        current_period := some period }

/-- `ensure_period(data, period)`; `now` is `datetime.now().isoformat()`. -/
def ensurePeriod (d : Doc) (period : String) (now : String) : Doc :=
  ensurePeriodCore (ensureNewSchemaS d) period now

/-- The mutation `update_stock` performs on the stock map:
`option_map = stock.setdefault(item, {})`,
`locations = option_map.setdefault(option_key, {})`,
`locations[location] = locations.get(location, 0) + quantity`. -/
def stockAdd (s : StockMap) (item okey location : String) (q : Int) : StockMap :=
  aset s item
    (aset (agetD s item []) okey
      (aset (agetD (agetD s item []) okey []) location
        (agetD (agetD (agetD s item []) okey []) location 0 + q)))

/-- `update_stock(data, item, option, location, quantity)`. -/
def updateStock (d : Doc) (item : String) (opt : String) (location : String)
    (quantity : Int) : Doc :=
  { ensureNewSchemaS d with
      stock := stockAdd (ensureNewSchemaS d).stock item (optionKey opt) location quantity }

/-- The errors `record_transaction` can raise (both are `ValueError`s whose
messages carry exactly these data). -/
inductive RecordErr where
  | artistMismatch (item : String) (existing : String)
  | insufficientStock (item : String) (location : String) (available : Int) (requested : Int)
  deriving DecidableEq, Repr

def RecordErr.isInsufficient : RecordErr → Bool
  | .insufficientStock _ _ _ _ => true
  | _ => false

def RecordErr.isMismatch : RecordErr → Bool
  | .artistMismatch _ _ => true
  | _ => false

def errIsInsufficient : Option RecordErr → Bool
  | some e => e.isInsufficient
  | none => false

def errIsMismatch : Option RecordErr → Bool
  | some e => e.isMismatch
  | none => false

/-- `stock[item][option][location]`, absent keys defaulting to 0 — the read
`record_transaction` performs for `available`
(`data.get("stock", {}).get(item, {}).get(option_key, {}).get(location, 0)`). -/
def stockGet (s : StockMap) (i o l : String) : Int :=
  agetD (agetD (agetD s i []) o []) l 0

/-- The metadata entry as `record_transaction` rewrites it after the artist
check passed: `info["artist"] = ...; info["category"] = ...;
if transaction.option: info["option"] = ...`. -/
def updatedInfo (info : MetaInfo) (tx : Tx) : MetaInfo :=
  let i := { info with artist := tx.artist, category := normalizeCategory tx.category }
  if tx.option ≠ "" then { i with lastOpt := tx.option } else i

/-- Step 6 of `record_transaction`: append the persisted entry to `history`. -/
def appendTx (d : Doc) (tx : Tx) : Option RecordErr × Doc :=
  (none, { d with history := d.history ++ [txToDict tx] })

/-- Steps 4–6 of `record_transaction`: the stock-sufficiency check for `out`
movements, the stock mutation and the history append. -/
def recordApplyCore (d : Doc) (tx : Tx) (allowNegative : Bool) : Option RecordErr × Doc :=
  if tx.type = "out" then
    if stockGet d.stock tx.item (optionKey tx.option) tx.location < tx.quantity ∧
        allowNegative = false then
      (some (.insufficientStock tx.item tx.location
          (stockGet d.stock tx.item (optionKey tx.option) tx.location) tx.quantity), d)
    else
      appendTx (updateStock d tx.item tx.option tx.location (-tx.quantity)) tx
  else
    appendTx (updateStock d tx.item tx.option tx.location tx.quantity) tx

/-- The document after `record_transaction`s opening calls
`ensure_period(data, transaction.period)` and `_ensure_new_schema(data)`. -/
def prepDoc (d0 : Doc) (tx : Tx) (now : String) : Doc :=
  ensureNewSchemaS (ensurePeriod d0 tx.period now)

/-- The document after `metadata.setdefault(transaction.item, {})`. -/
def bindDoc (d0 : Doc) (tx : Tx) (now : String) : Doc :=
  { prepDoc d0 tx now with
      item_metadata := asetd (prepDoc d0 tx now).item_metadata tx.item {} }

/-- `info = metadata.setdefault(transaction.item, {})` — the entry the artist
check reads. -/
def prepInfo (d0 : Doc) (tx : Tx) (now : String) : MetaInfo :=
  agetD (bindDoc d0 tx now).item_metadata tx.item {}

/-- The document after the artist check passed and the metadata entry was
rewritten (`info["artist"]/info["category"]/info["option"]`). -/
def applyDoc (d0 : Doc) (tx : Tx) (now : String) : Doc :=
  { bindDoc d0 tx now with
      item_metadata :=
        aset (bindDoc d0 tx now).item_metadata tx.item (updatedInfo (prepInfo d0 tx now) tx) }

/-- `record_transaction(data, transaction, allow_negative)`.  Python mutates
`data` in place and raises; the embedding returns the raised error (if any)
together with the document as the call leaves it. -/
def recordTransaction (d0 : Doc) (tx : Tx) (allowNegative : Bool) (now : String) :
    Option RecordErr × Doc :=
  if (prepInfo d0 tx now).artist ≠ "" ∧ (prepInfo d0 tx now).artist ≠ tx.artist then
    (some (.artistMismatch tx.item (prepInfo d0 tx now).artist), bindDoc d0 tx now)
  else
    recordApplyCore (applyDoc d0 tx now) tx allowNegative

/-- `summarize`'s inner loop body (one entry folded into the accumulator):
`sign = 1 if entry["type"] == "in" else -1` and then the same
setdefault/assignment chain as `update_stock`, with `sign * quantity`. -/
def summStep (s : StockMap) (e : Entry) : StockMap :=
  stockAdd s e.item (optionKey e.option) e.location ((if e.type = "in" then 1 else -1) * e.quantity)

/-- `summarize(entries)`. -/
def summarize (entries : List Entry) : StockMap :=
  entries.foldl summStep []

/-! ## Frame and effect lemmas for the structured operations -/

theorem aget_map_value {κ α β : Type} [DecidableEq κ] (m : List (κ × α)) (f : α → β) (k : κ) :
    aget (m.map fun p => (p.1, f p.2)) k = (aget m k).map f := by
  induction m with
  | nil => rfl
  | cons p t ih =>
      obtain ⟨k₀, v₀⟩ := p
      by_cases h : k₀ = k <;> simp [aget, h, ih]

theorem ensureNewSchemaS_stock (d : Doc) : (ensureNewSchemaS d).stock = d.stock := rfl

theorem ensureNewSchemaS_history (d : Doc) : (ensureNewSchemaS d).history = d.history := rfl

theorem ensureNewSchemaS_periods (d : Doc) : (ensureNewSchemaS d).periods = d.periods := rfl

theorem ensureNewSchemaS_current (d : Doc) :
    (ensureNewSchemaS d).current_period = d.current_period := rfl

theorem ensureNewSchemaS_metadata_get (d : Doc) (i : String) :
    aget (ensureNewSchemaS d).item_metadata i = (aget d.item_metadata i).map fixCategory := by
  show aget (d.item_metadata.map fun p => (p.1, fixCategory p.2)) i = _
  exact aget_map_value d.item_metadata fixCategory i

theorem fixCategory_artist (info : MetaInfo) : (fixCategory info).artist = info.artist := by
  unfold fixCategory
  split <;> rfl

theorem fixCategory_lastOpt (info : MetaInfo) : (fixCategory info).lastOpt = info.lastOpt := by
  unfold fixCategory
  split <;> rfl

theorem ensurePeriodCore_stock (d : Doc) (p now : String) :
    (ensurePeriodCore d p now).stock = d.stock := by
  unfold ensurePeriodCore
  split
  · rfl
  · split
    · rfl
    · split <;> rfl

theorem ensurePeriodCore_history (d : Doc) (p now : String) :
    (ensurePeriodCore d p now).history = d.history := by
  unfold ensurePeriodCore
  split
  · rfl
  · split
    · rfl
    · split <;> rfl

theorem ensurePeriodCore_metadata (d : Doc) (p now : String) :
    (ensurePeriodCore d p now).item_metadata = d.item_metadata := by
  unfold ensurePeriodCore
  split
  · rfl
  · split
    · rfl
    · split <;> rfl

theorem ensurePeriod_stock (d : Doc) (p now : String) :
    (ensurePeriod d p now).stock = d.stock :=
  (ensurePeriodCore_stock _ p now).trans (ensureNewSchemaS_stock d)

theorem ensurePeriod_history (d : Doc) (p now : String) :
    (ensurePeriod d p now).history = d.history :=
  (ensurePeriodCore_history _ p now).trans (ensureNewSchemaS_history d)

theorem ensurePeriod_metadata (d : Doc) (p now : String) :
    (ensurePeriod d p now).item_metadata = (ensureNewSchemaS d).item_metadata :=
  ensurePeriodCore_metadata _ p now

theorem updateStock_history (d : Doc) (i o l : String) (q : Int) :
    (updateStock d i o l q).history = d.history := rfl

theorem updateStock_periods (d : Doc) (i o l : String) (q : Int) :
    (updateStock d i o l q).periods = d.periods := rfl

theorem updateStock_current (d : Doc) (i o l : String) (q : Int) :
    (updateStock d i o l q).current_period = d.current_period := rfl

theorem updateStock_metadata (d : Doc) (i o l : String) (q : Int) :
    (updateStock d i o l q).item_metadata = (ensureNewSchemaS d).item_metadata := rfl

/-- The cell written by `stockAdd` gains `q`; every other cell is untouched. -/
theorem stockGet_stockAdd (s : StockMap) (item okey location : String) (q : Int)
    (i o l : String) :
    stockGet (stockAdd s item okey location q) i o l =
      stockGet s i o l + (if i = item ∧ o = okey ∧ l = location then q else 0) := by
  unfold stockAdd stockGet
  by_cases hi : i = item
  · subst hi
    simp only [agetD, aget_aset_self, Option.getD_some]
    by_cases ho : o = okey
    · subst ho
      simp only [aget_aset_self, Option.getD_some]
      by_cases hl : l = location
      · subst hl
        simp [aget_aset_self, agetD]
      · simp [aget_aset_ne _ _ _ _ hl, hl, agetD]
    · simp [aget_aset_ne _ _ _ _ ho, ho, agetD]
  · simp [agetD, aget_aset_ne _ _ _ _ hi, hi]

/-- The quantity written/read by `update_stock`, at every key at once. -/
theorem stockGet_updateStock (d : Doc) (item opt location : String) (q : Int)
    (i o l : String) :
    stockGet (updateStock d item opt location q).stock i o l =
      stockGet d.stock i o l +
        (if i = item ∧ o = optionKey opt ∧ l = location then q else 0) := by
  show stockGet (stockAdd (ensureNewSchemaS d).stock item (optionKey opt) location q) i o l = _
  rw [ensureNewSchemaS_stock, stockGet_stockAdd]

theorem strLt_empty (s : String) : strLt s "" = false := by
  unfold strLt
  cases hs : s.data
  · rfl
  · rfl

theorem charListLt_irrefl (l : List Char) : charListLt l l = false := by
  induction l with
  | nil => rfl
  | cons a t ih => simp [charListLt, lt_irrefl, ih]

theorem strLt_irrefl (s : String) : strLt s s = false := charListLt_irrefl s.data

theorem ensurePeriodCore_noop (d : Doc) (p now : String)
    (h : (aget d.periods p).isSome ∨
      (∃ c, d.current_period = some c ∧ (strLt p c = true ∨ p = c))) :
    ensurePeriodCore d p now = d := by
  unfold ensurePeriodCore
  by_cases h1 : (aget d.periods p).isSome
  · simp [h1]
  · rcases h with h1' | ⟨c, hc, hlt | heq⟩
    · exact absurd h1' h1
    · have hc' : c ≠ "" := by
        intro he
        rw [he, strLt_empty] at hlt
        exact Bool.false_ne_true hlt
      simp [h1, hc, hc', hlt]
    · subst heq
      simp [h1, hc, strLt_irrefl]

/-- C4: `ensure_period` is a no-op (on both `periods` and `current_period`)
when the period key already has a record, or is lexicographically strictly
earlier than a set `current_period`, or equals `current_period`. -/
theorem ensurePeriod_noop_cases (d : Doc) (p now : String)
    (h : (aget d.periods p).isSome ∨
      (∃ c, d.current_period = some c ∧ (strLt p c = true ∨ p = c))) :
    (ensurePeriod d p now).periods = d.periods ∧
      (ensurePeriod d p now).current_period = d.current_period := by
  have hcore : ensurePeriodCore (ensureNewSchemaS d) p now = ensureNewSchemaS d := by
    apply ensurePeriodCore_noop
    rcases h with h1 | h2
    · exact Or.inl (by rw [ensureNewSchemaS_periods]; exact h1)
    · exact Or.inr (by rw [ensureNewSchemaS_current]; exact h2)
  unfold ensurePeriod
  rw [hcore]
  exact ⟨ensureNewSchemaS_periods d, ensureNewSchemaS_current d⟩

/-- Scenario D of the spec: starting `"2024-02"` while `current_period` is
`"2024-03"` changes neither `periods` nor `current_period`. -/
def docScenD : Doc :=
  { current_period := some "2024-03"
    periods := [("2024-03", { opening_stock := [], created_at := "2024-03-01T00:00:00" })]
    stock := [("Album X", [("", [("Seoul", 6)])])]
    history := []
    item_metadata := [("Album X", { artist := "ArtistA", category := "album" })] }

/-- Witness for C4 at Scenario D. -/
theorem ensurePeriod_noop_cases_witness :
    (ensurePeriod docScenD "2024-02" "2024-02-05T09:00:00").periods = docScenD.periods ∧
      (ensurePeriod docScenD "2024-02" "2024-02-05T09:00:00").current_period =
        docScenD.current_period :=
  ensurePeriod_noop_cases docScenD "2024-02" "2024-02-05T09:00:00"
    (Or.inr ⟨"2024-03", rfl, Or.inl (by decide)⟩)

/-- C10: `update_stock` on an already-upgraded document adds the (possibly
negative) delta to the addressed `stock[item][option][location]` cell,
defaulting an absent quantity to 0 and creating intermediate maps, and leaves
every other stock quantity and the `history`/`periods`/`current_period`/
`item_metadata` fields unchanged.  It is a total function — no failure. -/
theorem updateStock_frame (d : Doc) (item opt location : String) (q : Int)
    (hup : ensureNewSchemaS d = d) :
    stockGet (updateStock d item opt location q).stock item (optionKey opt) location =
        stockGet d.stock item (optionKey opt) location + q ∧
      (∀ i o l, ¬(i = item ∧ o = optionKey opt ∧ l = location) →
        stockGet (updateStock d item opt location q).stock i o l = stockGet d.stock i o l) ∧
      (updateStock d item opt location q).history = d.history ∧
      (updateStock d item opt location q).periods = d.periods ∧
      (updateStock d item opt location q).current_period = d.current_period ∧
      (updateStock d item opt location q).item_metadata = d.item_metadata := by
  refine ⟨?_, ?_, rfl, rfl, rfl, ?_⟩
  · rw [stockGet_updateStock]
    simp
  · intro i o l hne
    rw [stockGet_updateStock]
    simp [hne]
  · rw [updateStock_metadata, hup]

/-- Witness for C10: remove 3 units at a fresh option/location of
`docScenD` (a negative resulting quantity is permitted at this layer). -/
theorem updateStock_frame_witness :
    ensureNewSchemaS docScenD = docScenD ∧
      (stockGet (updateStock docScenD "Album X" "OptA" "Busan" (-3)).stock "Album X"
            (optionKey "OptA") "Busan" =
          stockGet docScenD.stock "Album X" (optionKey "OptA") "Busan" + (-3) ∧
        (∀ i o l, ¬(i = "Album X" ∧ o = optionKey "OptA" ∧ l = "Busan") →
          stockGet (updateStock docScenD "Album X" "OptA" "Busan" (-3)).stock i o l =
            stockGet docScenD.stock i o l) ∧
        (updateStock docScenD "Album X" "OptA" "Busan" (-3)).history = docScenD.history ∧
        (updateStock docScenD "Album X" "OptA" "Busan" (-3)).periods = docScenD.periods ∧
        (updateStock docScenD "Album X" "OptA" "Busan" (-3)).current_period =
          docScenD.current_period ∧
        (updateStock docScenD "Album X" "OptA" "Busan" (-3)).item_metadata =
          docScenD.item_metadata) :=
  ⟨by decide, updateStock_frame docScenD "Album X" "OptA" "Busan" (-3) (by decide)⟩

/-! ## Characterizing `record_transaction` -/

theorem bindDoc_stock (d0 : Doc) (tx : Tx) (now : String) :
    (bindDoc d0 tx now).stock = d0.stock := by
  show (prepDoc d0 tx now).stock = d0.stock
  unfold prepDoc
  rw [ensureNewSchemaS_stock, ensurePeriod_stock]

theorem bindDoc_history (d0 : Doc) (tx : Tx) (now : String) :
    (bindDoc d0 tx now).history = d0.history := by
  show (prepDoc d0 tx now).history = d0.history
  unfold prepDoc
  rw [ensureNewSchemaS_history, ensurePeriod_history]

theorem bindDoc_periods (d0 : Doc) (tx : Tx) (now : String) :
    (bindDoc d0 tx now).periods = (ensurePeriod d0 tx.period now).periods := by
  show (prepDoc d0 tx now).periods = _
  unfold prepDoc
  rw [ensureNewSchemaS_periods]

theorem bindDoc_current (d0 : Doc) (tx : Tx) (now : String) :
    (bindDoc d0 tx now).current_period = (ensurePeriod d0 tx.period now).current_period := by
  show (prepDoc d0 tx now).current_period = _
  unfold prepDoc
  rw [ensureNewSchemaS_current]

theorem ensureNewSchemaS_agetD_artist (d : Doc) (i : String) :
    (agetD (ensureNewSchemaS d).item_metadata i {}).artist =
      (agetD d.item_metadata i {}).artist := by
  rw [agetD, agetD, ensureNewSchemaS_metadata_get]
  cases aget d.item_metadata i with
  | none => rfl
  | some m => simp [fixCategory_artist]

theorem prepInfo_artist (d0 : Doc) (tx : Tx) (now : String) :
    (prepInfo d0 tx now).artist = (agetD d0.item_metadata tx.item {}).artist := by
  unfold prepInfo bindDoc
  rw [agetD, aget_asetd_self, Option.getD_some]
  show (agetD (prepDoc d0 tx now).item_metadata tx.item {}).artist = _
  unfold prepDoc
  rw [ensureNewSchemaS_agetD_artist]
  have h := ensurePeriod_metadata d0 tx.period now
  rw [show agetD (ensurePeriod d0 tx.period now).item_metadata tx.item {} =
        agetD (ensureNewSchemaS d0).item_metadata tx.item {} by rw [agetD, agetD, h]]
  rw [ensureNewSchemaS_agetD_artist]

/-- The artist-mismatch condition, read off the caller-visible document:
the item already has a non-empty recorded artist different from the
transaction's. -/
def ArtistConflict (d : Doc) (tx : Tx) : Prop :=
  (agetD d.item_metadata tx.item {}).artist ≠ "" ∧
    (agetD d.item_metadata tx.item {}).artist ≠ tx.artist

instance (d : Doc) (tx : Tx) : Decidable (ArtistConflict d tx) := by
  unfold ArtistConflict
  infer_instance

theorem recordTransaction_mismatch (d0 : Doc) (tx : Tx) (ng : Bool) (now : String)
    (h : ArtistConflict d0 tx) :
    recordTransaction d0 tx ng now =
      (some (.artistMismatch tx.item (agetD d0.item_metadata tx.item {}).artist),
        bindDoc d0 tx now) := by
  unfold recordTransaction
  rw [if_pos ⟨by rw [prepInfo_artist]; exact h.1, by rw [prepInfo_artist]; exact h.2⟩,
    prepInfo_artist]

theorem recordTransaction_no_mismatch (d0 : Doc) (tx : Tx) (ng : Bool) (now : String)
    (h : ¬ ArtistConflict d0 tx) :
    recordTransaction d0 tx ng now = recordApplyCore (applyDoc d0 tx now) tx ng := by
  unfold recordTransaction
  rw [if_neg]
  intro hc
  exact h ⟨by rw [← prepInfo_artist d0 tx now]; exact hc.1,
    by rw [← prepInfo_artist d0 tx now]; exact hc.2⟩

theorem recordApplyCore_not_mismatch (d : Doc) (tx : Tx) (ng : Bool) :
    errIsMismatch (recordApplyCore d tx ng).1 = false := by
  unfold recordApplyCore
  split
  · split
    · rfl
    · rfl
  · rfl

theorem updatedInfo_artist (info : MetaInfo) (tx : Tx) :
    (updatedInfo info tx).artist = tx.artist := by
  unfold updatedInfo
  split <;> rfl

theorem updatedInfo_category (info : MetaInfo) (tx : Tx) :
    (updatedInfo info tx).category = normalizeCategory tx.category := by
  unfold updatedInfo
  split <;> rfl

theorem updatedInfo_lastOpt (info : MetaInfo) (tx : Tx) (h : tx.option ≠ "") :
    (updatedInfo info tx).lastOpt = tx.option := by
  unfold updatedInfo
  rw [if_pos h]

theorem recordApplyCore_metadata_artist (d : Doc) (tx : Tx) (ng : Bool) (i : String) :
    (agetD (recordApplyCore d tx ng).2.item_metadata i {}).artist =
      (agetD d.item_metadata i {}).artist := by
  unfold recordApplyCore
  split
  · split
    · rfl
    · show (agetD (updateStock d tx.item tx.option tx.location (-tx.quantity)).item_metadata
          i {}).artist = _
      rw [updateStock_metadata, ensureNewSchemaS_agetD_artist]
  · show (agetD (updateStock d tx.item tx.option tx.location tx.quantity).item_metadata
        i {}).artist = _
    rw [updateStock_metadata, ensureNewSchemaS_agetD_artist]

theorem applyDoc_artist_self (d0 : Doc) (tx : Tx) (now : String) :
    (agetD (applyDoc d0 tx now).item_metadata tx.item {}).artist = tx.artist := by
  unfold applyDoc
  show (agetD (aset (bindDoc d0 tx now).item_metadata tx.item
      (updatedInfo (prepInfo d0 tx now) tx)) tx.item {}).artist = _
  rw [agetD, aget_aset_self, Option.getD_some, updatedInfo_artist]

/-- C6: `record_transaction` raises the artist-mismatch error exactly when
the item already has a non-empty recorded artist different from the
transaction's; with no metadata entry, or no artist recorded yet, the call
does not raise that error and binds the transaction's artist to the item
(in the document the call leaves behind, whatever its outcome). -/
theorem recordTransaction_artist_binding (d : Doc) (tx : Tx) (ng : Bool) (now : String) :
    (errIsMismatch (recordTransaction d tx ng now).1 = true ↔ ArtistConflict d tx) ∧
      ((aget d.item_metadata tx.item = none ∨
          (agetD d.item_metadata tx.item {}).artist = "") →
        errIsMismatch (recordTransaction d tx ng now).1 = false ∧
          (agetD (recordTransaction d tx ng now).2.item_metadata tx.item {}).artist =
            tx.artist) := by
  constructor
  · by_cases hc : ArtistConflict d tx
    · rw [recordTransaction_mismatch d tx ng now hc]
      simpa [errIsMismatch, RecordErr.isMismatch] using hc
    · rw [recordTransaction_no_mismatch d tx ng now hc]
      simp [recordApplyCore_not_mismatch, hc]
  · intro h0
    have hart : (agetD d.item_metadata tx.item {}).artist = "" := by
      rcases h0 with h | h
      · rw [agetD, h, Option.getD_none]
      · exact h
    have hc : ¬ ArtistConflict d tx := fun hb => hb.1 hart
    rw [recordTransaction_no_mismatch d tx ng now hc]
    exact ⟨recordApplyCore_not_mismatch _ _ _,
      by rw [recordApplyCore_metadata_artist, applyDoc_artist_self]⟩

theorem applyDoc_stock (d0 : Doc) (tx : Tx) (now : String) :
    (applyDoc d0 tx now).stock = d0.stock := by
  show (bindDoc d0 tx now).stock = d0.stock
  exact bindDoc_stock d0 tx now

theorem applyDoc_history (d0 : Doc) (tx : Tx) (now : String) :
    (applyDoc d0 tx now).history = d0.history := by
  show (bindDoc d0 tx now).history = d0.history
  exact bindDoc_history d0 tx now

theorem applyDoc_periods (d0 : Doc) (tx : Tx) (now : String) :
    (applyDoc d0 tx now).periods = (ensurePeriod d0 tx.period now).periods := by
  show (bindDoc d0 tx now).periods = _
  exact bindDoc_periods d0 tx now

theorem applyDoc_current (d0 : Doc) (tx : Tx) (now : String) :
    (applyDoc d0 tx now).current_period = (ensurePeriod d0 tx.period now).current_period := by
  show (bindDoc d0 tx now).current_period = _
  exact bindDoc_current d0 tx now

theorem recordApplyCore_insufficient (d : Doc) (tx : Tx) (ng : Bool)
    (htype : tx.type = "out")
    (h : stockGet d.stock tx.item (optionKey tx.option) tx.location < tx.quantity)
    (hng : ng = false) :
    recordApplyCore d tx ng =
      (some (.insufficientStock tx.item tx.location
          (stockGet d.stock tx.item (optionKey tx.option) tx.location) tx.quantity), d) := by
  unfold recordApplyCore
  rw [if_pos htype, if_pos ⟨h, hng⟩]

/-- A fresh inbound transaction (Scenario A shape). -/
def txA : Tx :=
  { type := "in", artist := "ArtistA", item := "Album X", option := "", location := "Seoul"
    quantity := 10, timestamp := "2024-03-02T10:00:00", period := "2024-03"
    day := "2024-03-02", year := "2024" }

/-- Witness for C6: on the empty document no mismatch is raised and the
artist gets bound. -/
theorem recordTransaction_artist_binding_witness :
    (errIsMismatch (recordTransaction emptyDoc txA false "2024-03-02T10:00:00").1 = true ↔
        ArtistConflict emptyDoc txA) ∧
      (errIsMismatch (recordTransaction emptyDoc txA false "2024-03-02T10:00:00").1 = false ∧
        (agetD (recordTransaction emptyDoc txA false "2024-03-02T10:00:00").2.item_metadata
            txA.item {}).artist = txA.artist) :=
  ⟨(recordTransaction_artist_binding emptyDoc txA false "2024-03-02T10:00:00").1,
    (recordTransaction_artist_binding emptyDoc txA false "2024-03-02T10:00:00").2
      (Or.inl rfl)⟩

/-- Outbound request for 10 units by the bound artist (Scenario C). -/
def txOutA10 : Tx :=
  { type := "out", artist := "ArtistA", item := "Album X", option := "", location := "Seoul"
    quantity := 10, timestamp := "2024-03-03T10:00:00", period := "2024-03"
    day := "2024-03-03", year := "2024" }

/-- The same outbound request issued under a different artist name. -/
def txOutB10 : Tx := { txOutA10 with artist := "ArtistB" }

/-- An outbound request for exactly the available 6 units, wrong artist. -/
def txOutB6 : Tx := { txOutB10 with quantity := 6 }

/-- An outbound request for exactly the available 6 units, bound artist. -/
def txOutA6 : Tx := { txOutA10 with quantity := 6 }

/-- C2 counterexample: with `type="out"`, `allow_negative=false` and
`available (6) < requested (10)` but the transaction carrying a different
artist than the one bound to the item, `record_transaction` raises the
artist-mismatch error, not `InsufficientStock` — so the claim's unconditional
statement fails. -/
theorem recordTransaction_insufficient_counterexample :
    txOutB10.type = "out" ∧
      stockGet docScenD.stock txOutB10.item (optionKey txOutB10.option) txOutB10.location = 6 ∧
      txOutB10.quantity = 10 ∧
      errIsInsufficient (recordTransaction docScenD txOutB10 false "2024-03-03T10:00:00").1 =
        false ∧
      errIsMismatch (recordTransaction docScenD txOutB10 false "2024-03-03T10:00:00").1 =
        true := by
  decide

/-- C2 (amended): provided the transaction's artist does not conflict with an
already-bound artist, an `out` transaction with `available < quantity` and
`allow_negative=false` fails with `InsufficientStock` reporting the item,
location, available and requested quantities, and leaves `stock` and
`history` exactly as before the call. -/
theorem recordTransaction_insufficient_atomic (d : Doc) (tx : Tx) (now : String)
    (hnc : ¬ ArtistConflict d tx) (htype : tx.type = "out")
    (hq : stockGet d.stock tx.item (optionKey tx.option) tx.location < tx.quantity) :
    (recordTransaction d tx false now).1 =
        some (.insufficientStock tx.item tx.location
          (stockGet d.stock tx.item (optionKey tx.option) tx.location) tx.quantity) ∧
      (recordTransaction d tx false now).2.stock = d.stock ∧
      (recordTransaction d tx false now).2.history = d.history := by
  rw [recordTransaction_no_mismatch d tx false now hnc]
  have hs : (applyDoc d tx now).stock = d.stock := applyDoc_stock d tx now
  rw [recordApplyCore_insufficient (applyDoc d tx now) tx false htype (by rw [hs]; exact hq)
    rfl]
  exact ⟨by rw [hs], hs, applyDoc_history d tx now⟩

/-- Witness for the amended C2 at Scenario C: available 6, requested 10,
error reports exactly those numbers, stock stays 6. -/
theorem recordTransaction_insufficient_atomic_witness :
    (¬ ArtistConflict docScenD txOutA10) ∧ txOutA10.type = "out" ∧
      stockGet docScenD.stock txOutA10.item (optionKey txOutA10.option) txOutA10.location <
        txOutA10.quantity ∧
      ((recordTransaction docScenD txOutA10 false "2024-03-03T10:00:00").1 =
          some (.insufficientStock txOutA10.item txOutA10.location
            (stockGet docScenD.stock txOutA10.item (optionKey txOutA10.option)
              txOutA10.location) txOutA10.quantity) ∧
        (recordTransaction docScenD txOutA10 false "2024-03-03T10:00:00").2.stock =
          docScenD.stock ∧
        (recordTransaction docScenD txOutA10 false "2024-03-03T10:00:00").2.history =
          docScenD.history) :=
  ⟨by decide, rfl, by decide,
    recordTransaction_insufficient_atomic docScenD txOutA10 "2024-03-03T10:00:00" (by decide)
      rfl (by decide)⟩

/-- C7 counterexample: an `out` transaction for exactly the available
quantity still fails when its artist conflicts with the bound artist — so
the claim's unconditional statement fails. -/
theorem recordTransaction_boundary_counterexample :
    txOutB6.type = "out" ∧
      txOutB6.quantity =
        stockGet docScenD.stock txOutB6.item (optionKey txOutB6.option) txOutB6.location ∧
      (recordTransaction docScenD txOutB6 false "2024-03-03T10:00:00").1 ≠ none := by
  decide

/-- C7 (amended): provided the transaction's artist does not conflict with an
already-bound artist, an `out` transaction for exactly the available quantity
succeeds (whatever `allow_negative` is), drives the cell to exactly 0, and
appends exactly one entry to `history`. -/
theorem recordTransaction_out_boundary (d : Doc) (tx : Tx) (ng : Bool) (now : String)
    (hnc : ¬ ArtistConflict d tx) (htype : tx.type = "out")
    (hq : tx.quantity = stockGet d.stock tx.item (optionKey tx.option) tx.location) :
    (recordTransaction d tx ng now).1 = none ∧
      stockGet (recordTransaction d tx ng now).2.stock tx.item (optionKey tx.option)
          tx.location = 0 ∧
      (recordTransaction d tx ng now).2.history = d.history ++ [txToDict tx] := by
  rw [recordTransaction_no_mismatch d tx ng now hnc]
  have hs : (applyDoc d tx now).stock = d.stock := applyDoc_stock d tx now
  unfold recordApplyCore
  rw [if_pos htype, if_neg (by
    rintro ⟨hlt, -⟩
    rw [hs, ← hq] at hlt
    exact lt_irrefl _ hlt)]
  refine ⟨rfl, ?_, ?_⟩
  · show stockGet
      (updateStock (applyDoc d tx now) tx.item tx.option tx.location (-tx.quantity)).stock
        tx.item (optionKey tx.option) tx.location = 0
    rw [stockGet_updateStock, hs, if_pos ⟨rfl, rfl, rfl⟩, ← hq]
    ring
  · show (updateStock (applyDoc d tx now) tx.item tx.option tx.location
        (-tx.quantity)).history ++ [txToDict tx] = d.history ++ [txToDict tx]
    rw [updateStock_history, applyDoc_history]

/-- Witness for the amended C7: taking out exactly the 6 available units
succeeds, zeroes the cell, appends one entry. -/
theorem recordTransaction_out_boundary_witness :
    (¬ ArtistConflict docScenD txOutA6) ∧ txOutA6.type = "out" ∧
      txOutA6.quantity =
        stockGet docScenD.stock txOutA6.item (optionKey txOutA6.option) txOutA6.location ∧
      ((recordTransaction docScenD txOutA6 false "2024-03-03T10:00:00").1 = none ∧
        stockGet (recordTransaction docScenD txOutA6 false "2024-03-03T10:00:00").2.stock
            txOutA6.item (optionKey txOutA6.option) txOutA6.location = 0 ∧
        (recordTransaction docScenD txOutA6 false "2024-03-03T10:00:00").2.history =
          docScenD.history ++ [txToDict txOutA6]) :=
  ⟨by decide, rfl, by decide,
    recordTransaction_out_boundary docScenD txOutA6 false "2024-03-03T10:00:00" (by decide)
      rfl (by decide)⟩

theorem recordApplyCore_insufficient_doc (d : Doc) (tx : Tx) (ng : Bool)
    (h : errIsInsufficient (recordApplyCore d tx ng).1 = true) :
    (recordApplyCore d tx ng).2 = d := by
  unfold recordApplyCore at h ⊢
  split at h
  · split at h
    · split
      · rfl
      · simp_all
    · simp [appendTx, errIsInsufficient] at h
  · simp [appendTx, errIsInsufficient] at h

/-- C9 (implicit): when `record_transaction` fails with the
insufficient-stock error the document is *not* fully rolled back: the
metadata entry for the item has already been created or overwritten with the
transaction's artist, its normalized category and (for a non-empty option)
the last-seen option, and `ensure_period` has already run for the
transaction's period; only `stock` and `history` are as before the call. -/
theorem recordTransaction_failure_side_effects (d : Doc) (tx : Tx) (ng : Bool) (now : String)
    (herr : errIsInsufficient (recordTransaction d tx ng now).1 = true) :
    (recordTransaction d tx ng now).2.stock = d.stock ∧
      (recordTransaction d tx ng now).2.history = d.history ∧
      (∃ info, aget (recordTransaction d tx ng now).2.item_metadata tx.item = some info ∧
        info.artist = tx.artist ∧ info.category = normalizeCategory tx.category ∧
        (tx.option ≠ "" → info.lastOpt = tx.option)) ∧
      (recordTransaction d tx ng now).2.periods = (ensurePeriod d tx.period now).periods ∧
      (recordTransaction d tx ng now).2.current_period =
        (ensurePeriod d tx.period now).current_period := by
  have hnc : ¬ ArtistConflict d tx := by
    intro hc
    rw [recordTransaction_mismatch d tx ng now hc] at herr
    simp [errIsInsufficient, RecordErr.isInsufficient] at herr
  rw [recordTransaction_no_mismatch d tx ng now hnc] at herr ⊢
  rw [recordApplyCore_insufficient_doc _ _ _ herr]
  refine ⟨applyDoc_stock d tx now, applyDoc_history d tx now, ?_,
    applyDoc_periods d tx now, applyDoc_current d tx now⟩
  refine ⟨updatedInfo (prepInfo d tx now) tx, ?_, updatedInfo_artist _ tx,
    updatedInfo_category _ tx, fun h => updatedInfo_lastOpt _ tx h⟩
  show aget (aset (bindDoc d tx now).item_metadata tx.item
    (updatedInfo (prepInfo d tx now) tx)) tx.item = _
  rw [aget_aset_self]

/-- Witness for C9 at Scenario C: the failing `out` of 10 units still
rebinds the metadata entry while leaving stock and history alone. -/
theorem recordTransaction_failure_side_effects_witness :
    errIsInsufficient (recordTransaction docScenD txOutA10 false "2024-03-03T10:00:00").1 =
        true ∧
      ((recordTransaction docScenD txOutA10 false "2024-03-03T10:00:00").2.stock =
          docScenD.stock ∧
        (recordTransaction docScenD txOutA10 false "2024-03-03T10:00:00").2.history =
          docScenD.history ∧
        (∃ info,
          aget (recordTransaction docScenD txOutA10 false
              "2024-03-03T10:00:00").2.item_metadata txOutA10.item = some info ∧
          info.artist = txOutA10.artist ∧
          info.category = normalizeCategory txOutA10.category ∧
          (txOutA10.option ≠ "" → info.lastOpt = txOutA10.option)) ∧
        (recordTransaction docScenD txOutA10 false "2024-03-03T10:00:00").2.periods =
          (ensurePeriod docScenD txOutA10.period "2024-03-03T10:00:00").periods ∧
        (recordTransaction docScenD txOutA10 false "2024-03-03T10:00:00").2.current_period =
          (ensurePeriod docScenD txOutA10.period "2024-03-03T10:00:00").current_period) :=
  ⟨by decide,
    recordTransaction_failure_side_effects docScenD txOutA10 false "2024-03-03T10:00:00"
      (by decide)⟩

/-! ## C1: stock is the fold of history -/

/-- The signed contribution of one history entry to one stock cell, exactly
as `summarize` accumulates it. -/
def entryContrib (e : Entry) (i o l : String) : Int :=
  if i = e.item ∧ o = optionKey e.option ∧ l = e.location then
    (if e.type = "in" then 1 else -1) * e.quantity
  else 0

/-- Net signed quantity of a history slice at one cell. -/
def netQty (es : List Entry) (i o l : String) : Int :=
  (es.map fun e => entryContrib e i o l).sum

theorem stockGet_summStep (s : StockMap) (e : Entry) (i o l : String) :
    stockGet (summStep s e) i o l = stockGet s i o l + entryContrib e i o l := by
  unfold summStep entryContrib
  rw [stockGet_stockAdd]

theorem stockGet_foldl_summStep (es : List Entry) (acc : StockMap) (i o l : String) :
    stockGet (es.foldl summStep acc) i o l = stockGet acc i o l + netQty es i o l := by
  induction es generalizing acc with
  | nil => simp [netQty]
  | cons e t ih =>
      rw [List.foldl_cons, ih, stockGet_summStep]
      unfold netQty
      rw [List.map_cons, List.sum_cons]
      ring

theorem stockGet_summarize (es : List Entry) (i o l : String) :
    stockGet (summarize es) i o l = netQty es i o l := by
  unfold summarize
  rw [stockGet_foldl_summStep]
  simp [stockGet, agetD, aget]

theorem netQty_append (es : List Entry) (e : Entry) (i o l : String) :
    netQty (es ++ [e]) i o l = netQty es i o l + entryContrib e i o l := by
  unfold netQty
  simp

/-- The stock delta `record_transaction` applies equals the contribution
`summarize` attributes to the appended entry, for `in`/`out` transactions. -/
theorem recordDelta_eq_entryContrib (tx : Tx) (htype : tx.type = "in" ∨ tx.type = "out")
    (i o l : String) :
    (if i = tx.item ∧ o = optionKey tx.option ∧ l = tx.location then
        (if tx.type = "out" then -tx.quantity else tx.quantity) else 0) =
      entryContrib (txToDict tx) i o l := by
  rcases htype with h | h <;> simp [entryContrib, txToDict, h]

/-- What a successful `record_transaction` does to `history` and to every
stock cell. -/
theorem recordTransaction_success_effect (d : Doc) (tx : Tx) (ng : Bool) (now : String)
    (h : (recordTransaction d tx ng now).1 = none) :
    (recordTransaction d tx ng now).2.history = d.history ++ [txToDict tx] ∧
      ∀ i o l, stockGet (recordTransaction d tx ng now).2.stock i o l =
        stockGet d.stock i o l +
          (if i = tx.item ∧ o = optionKey tx.option ∧ l = tx.location then
            (if tx.type = "out" then -tx.quantity else tx.quantity) else 0) := by
  have hnc : ¬ ArtistConflict d tx := by
    intro hc
    rw [recordTransaction_mismatch d tx ng now hc] at h
    exact Option.some_ne_none _ h
  rw [recordTransaction_no_mismatch d tx ng now hnc] at h ⊢
  unfold recordApplyCore at h ⊢
  by_cases ht : tx.type = "out"
  · rw [if_pos ht] at h ⊢
    by_cases hins : stockGet (applyDoc d tx now).stock tx.item (optionKey tx.option)
        tx.location < tx.quantity ∧ ng = false
    · rw [if_pos hins] at h
      exact absurd h (Option.some_ne_none _)
    · rw [if_neg hins]
      constructor
      · show (updateStock (applyDoc d tx now) tx.item tx.option tx.location
            (-tx.quantity)).history ++ [txToDict tx] = _
        rw [updateStock_history, applyDoc_history]
      · intro i o l
        show stockGet (updateStock (applyDoc d tx now) tx.item tx.option tx.location
            (-tx.quantity)).stock i o l = _
        rw [stockGet_updateStock, applyDoc_stock, if_pos ht]
  · rw [if_neg ht]
    constructor
    · show (updateStock (applyDoc d tx now) tx.item tx.option tx.location
          tx.quantity).history ++ [txToDict tx] = _
      rw [updateStock_history, applyDoc_history]
    · intro i o l
      show stockGet (updateStock (applyDoc d tx now) tx.item tx.option tx.location
          tx.quantity).stock i o l = _
      rw [stockGet_updateStock, applyDoc_stock, if_neg ht]

/-- Documents reachable from the empty document by successful
`record_transaction` calls (with `"in"`/`"out"` transactions, any
`allow_negative`). -/
inductive Reachable : Doc → Prop where
  | protected empty : Reachable emptyDoc
  | protected step {d d' : Doc} (tx : Tx) (ng : Bool) (now : String) :
      Reachable d → (tx.type = "in" ∨ tx.type = "out") →
      recordTransaction d tx ng now = (none, d') → Reachable d'

/-- C1: on every document reachable from the empty document by successful
`record_transaction` calls, replaying the full history as `summarize` does
yields exactly the live stock map — every cell of `stock` equals the net
signed history quantity at that cell, and absent keys have net 0. -/
theorem stock_consistency (d : Doc) (hr : Reachable d) (i o l : String) :
    stockGet d.stock i o l = stockGet (summarize d.history) i o l := by
  rw [stockGet_summarize]
  induction hr with
  | empty => simp [emptyDoc, netQty, stockGet, agetD, aget]
  | step tx ng now hprev htype heq ih =>
      rename_i d₁ d₂
      have h1 : (recordTransaction d₁ tx ng now).1 = none := by rw [heq]
      obtain ⟨hh, hs⟩ := recordTransaction_success_effect d₁ tx ng now h1
      have h2 : (recordTransaction d₁ tx ng now).2 = d₂ := by rw [heq]
      rw [h2] at hh hs
      rw [hs i o l, hh, netQty_append, ih, recordDelta_eq_entryContrib tx htype]

/-- A document reached by one successful inbound transaction. -/
def docA : Doc := (recordTransaction emptyDoc txA false "2024-03-02T10:00:00").2

/-- Witness for C1 on a reachable document. -/
theorem stock_consistency_witness :
    stockGet docA.stock "Album X" "" "Seoul" =
      stockGet (summarize docA.history) "Album X" "" "Seoul" :=
  stock_consistency docA
    (Reachable.step txA false "2024-03-02T10:00:00" Reachable.empty (Or.inl rfl) (by decide))
    "Album X" "" "Seoul"

/-! ## Raw JSON-level model of `_ensure_new_schema`

The schema upgrader is specified on arbitrary (possibly legacy or malformed)
documents, so it is embedded over a JSON-like value type.  A raising Python
run is an `Except.error` (the embedding does not track the partial in-place
mutations a raising run leaves behind; no claim concerns them). -/

inductive RVal where
  | int (n : Int)
  | str (s : String)
  | bool (b : Bool)
  | null
  | arr (elems : List RVal)
  | obj (fields : List (String × RVal))

/-- A JSON object — a Python dict with string keys. -/
abbrev RObj := List (String × RVal)

/-- `isinstance(v, dict)`. -/
def RVal.isObjV : RVal → Bool
  | .obj _ => true
  | _ => false

/-- Python truthiness of a JSON value. -/
def RVal.truthy : RVal → Bool
  | .int n => n ≠ 0
  | .str s => s ≠ ""
  | .bool b => b
  | .null => false
  | .arr l => !l.isEmpty
  | .obj l => !l.isEmpty

/-- `isinstance(v, int)` — in Python this also accepts booleans. -/
def RVal.isIntLike : RVal → Bool
  | .int _ => true
  | .bool _ => true
  | _ => false

/-- One item of the `stock` loop: a non-dict value is reset to `{"": {}}`;
a non-empty flat `location → int` mapping is wrapped as `{"": value}`. -/
def upgradeStockItem (v : RVal) : RVal :=
  match v with
  | .obj fields =>
      if !fields.isEmpty && fields.all fun p => p.2.isIntLike then .obj [("", .obj fields)]
      else .obj fields
  | _ => .obj [("", .obj [])]

/-- One item of a period's `opening_stock` loop
(`if value and all(isinstance(qty, int) for qty in value.values())`).
No `isinstance` guard here: a *truthy* non-dict value hits `value.values()`
and raises; a falsy value of any shape short-circuits and is left alone.
Spelled per constructor: a dict is wrapped when non-empty (truthy) with all
integer values; every other truthy value raises. -/
def upgradeOpeningItem (v : RVal) : Except String RVal :=
  match v with
  | .obj fields =>
      .ok (if !fields.isEmpty && fields.all (fun p => p.2.isIntLike) then
        .obj [("", .obj fields)] else .obj fields)
  | .int n => if n ≠ 0 then .error "AttributeError: values" else .ok (.int n)
  | .str s => if s ≠ "" then .error "AttributeError: values" else .ok (.str s)
  | .bool b => if b then .error "AttributeError: values" else .ok (.bool b)
  | .null => .ok .null
  | .arr l => if !l.isEmpty then .error "AttributeError: values" else .ok (.arr l)

def upgradeOpeningList : List (String × RVal) → Except String (List (String × RVal))
  | [] => .ok []
  | p :: t =>
      match upgradeOpeningItem p.2 with
      | .error e => .error e
      | .ok v =>
          match upgradeOpeningList t with
          | .error e => .error e
          | .ok t2 => .ok ((p.1, v) :: t2)

/-- One metadata entry of the `last_audit` loop (non-dict entries are
skipped by `continue`). -/
def upgradeMetaAudit (v : RVal) : RVal :=
  match v with
  | .obj fields =>
      match aget fields "last_audit" with
      | some (.obj _) => .obj fields
      | _ => .obj (aset fields "last_audit" (.obj []))
  | other => other

/-- One metadata entry of the final `category` loop. -/
def upgradeMetaCategory (v : RVal) : RVal :=
  match v with
  | .obj fields =>
      if (agetD fields "category" .null).truthy then .obj fields
      else .obj (aset fields "category" (.str "album"))
  | other => other

/-- One history entry: the four `setdefault` calls.  A non-dict entry has no
`.setdefault` and raises. -/
def upgradeEntry (e : RVal) : Except String RVal :=
  match e with
  | .obj fields =>
      .ok (.obj (asetd (asetd (asetd (asetd fields "event" (.bool false))
        "event_id" (.str "")) "event_open" (.bool false)) "category" (.str "album")))
  | _ => .error "AttributeError: setdefault"

def upgradeEntryList : List RVal → Except String (List RVal)
  | [] => .ok []
  | e :: t =>
      match upgradeEntry e with
      | .error msg => .error msg
      | .ok e2 =>
          match upgradeEntryList t with
          | .error msg => .error msg
          | .ok t2 => .ok (e2 :: t2)

/-- One `periods` entry: a non-dict `opening_stock` is reset to `{}`;
otherwise its items are option-wrapped like the stock map. -/
def upgradePeriodInfo (pv : RVal) : Except String RVal :=
  match pv with
  | .obj fields =>
      match aget fields "opening_stock" with
      | some (.obj os) =>
          match upgradeOpeningList os with
          | .error e => .error e
          | .ok os2 => .ok (.obj (aset fields "opening_stock" (.obj os2)))
      | _ => .ok (.obj (aset fields "opening_stock" (.obj [])))
  | _ => .error "AttributeError: get"

def upgradePeriodList : List (String × RVal) → Except String (List (String × RVal))
  | [] => .ok []
  | p :: t =>
      match upgradePeriodInfo p.2 with
      | .error e => .error e
      | .ok v =>
          match upgradePeriodList t with
          | .error e => .error e
          | .ok t2 => .ok ((p.1, v) :: t2)

/-- The whole `periods` mapping (`.values()` raises on a non-dict). -/
def periodsAll (p : RVal) : Except String RVal :=
  match p with
  | .obj fields =>
      match upgradePeriodList fields with
      | .error e => .error e
      | .ok fs => .ok (.obj fs)
  | _ => .error "AttributeError: values"

/-- The whole `item_metadata` mapping, `last_audit` pass. -/
def metaAuditAll (m : RVal) : Except String RVal :=
  match m with
  | .obj fields => .ok (.obj (fields.map fun p => (p.1, upgradeMetaAudit p.2)))
  | _ => .error "AttributeError: values"

/-- The whole `item_metadata` mapping, `category` pass. -/
def metaCategoryAll (m : RVal) : Except String RVal :=
  match m with
  | .obj fields => .ok (.obj (fields.map fun p => (p.1, upgradeMetaCategory p.2)))
  | _ => .error "AttributeError: items"

/-- Iterating `history`: a list is processed entry by entry; an empty dict or
empty string yields no iterations (and no mutation); anything else raises on
iteration or on the first entry. -/
def historyUpgrade (h : RVal) : Except String RVal :=
  match h with
  | .arr es =>
      match upgradeEntryList es with
      | .error msg => .error msg
      | .ok es2 => .ok (.arr es2)
  | .obj [] => .ok (.obj [])
  | .obj (_ :: _) => .error "AttributeError: setdefault"
  | .str s => if s = "" then .ok (.str "") else .error "AttributeError: setdefault"
  | _ => .error "TypeError: not iterable"

/-- Pass 3 of the upgrader: `metadata = data.setdefault("item_metadata", {})`
was already applied; run the `last_audit` loop and store the result. -/
def schemaMeta (d : RObj) : Except String RObj :=
  match metaAuditAll (agetD d "item_metadata" (.obj [])) with
  | .error e => .error e
  | .ok md => .ok (aset d "item_metadata" md)

/-- Pass 4: the `periods` loop.  `data.get("periods", {})` does not insert a
missing key, so the transformed mapping is written back only when present. -/
def schemaPeriods (d : RObj) : Except String RObj :=
  match periodsAll (agetD d "periods" (.obj [])) with
  | .error e => .error e
  | .ok pv =>
      .ok (match aget d "periods" with
        | some _ => aset d "periods" pv
        | none => d)

/-- Pass 5: the history loop (`data.get("history", [])`, written back only
when the key is present). -/
def schemaHistory (d : RObj) : Except String RObj :=
  match historyUpgrade (agetD d "history" (.arr [])) with
  | .error e => .error e
  | .ok hv =>
      .ok (match aget d "history" with
        | some _ => aset d "history" hv
        | none => d)

/-- Pass 6: the final `category` loop over `item_metadata`. -/
def schemaMetaCat (d : RObj) : Except String RObj :=
  match metaCategoryAll (agetD d "item_metadata" (.obj [])) with
  | .error e => .error e
  | .ok md => .ok (aset d "item_metadata" md)

/-- `_ensure_new_schema(data)` on a raw document.  If `stock` is absent or
not a mapping it is reset to `{}` and the function returns at once; otherwise
the rewriting passes run in source order: stock option-wrapping, the
`item_metadata` setdefault + `last_audit` pass, the `periods` pass, the
history pass, and the `category` pass.  A raising Python run is an error. -/
def ensureNewSchemaRaw (data : RObj) : Except String RObj :=
  match aget data "stock" with
  | some (.obj stockFields) =>
      match schemaMeta (asetd (aset data "stock"
          (.obj (stockFields.map fun p => (p.1, upgradeStockItem p.2))))
          "item_metadata" (.obj [])) with
      | .error e => .error e
      | .ok d3 =>
          match schemaPeriods d3 with
          | .error e => .error e
          | .ok d4 =>
              match schemaHistory d4 with
              | .error e => .error e
              | .ok d5 => schemaMetaCat d5
  | some _ => .ok (aset data "stock" (.obj []))
  | none => .ok (aset data "stock" (.obj []))

/-! ## Idempotence of the raw upgrader on documents with a stock mapping -/

theorem aset_aset {κ α : Type} [DecidableEq κ] (m : List (κ × α)) (k : κ) (v w : α) :
    aset (aset m k v) k w = aset m k w := by
  induction m with
  | nil => simp [aset]
  | cons p t ih =>
      obtain ⟨k₀, v₀⟩ := p
      by_cases hk : k₀ = k <;> simp [aset, hk, ih]

theorem upgradeStockItem_idem (v : RVal) :
    upgradeStockItem (upgradeStockItem v) = upgradeStockItem v := by
  cases v with
  | obj fields =>
      by_cases h : (!fields.isEmpty && fields.all fun p => p.2.isIntLike) = true
      · have h1 : upgradeStockItem (RVal.obj fields) = RVal.obj [("", RVal.obj fields)] := by
          simp only [upgradeStockItem]
          rw [if_pos h]
        rw [h1]
        simp [upgradeStockItem, RVal.isIntLike]
      · have h1 : upgradeStockItem (RVal.obj fields) = RVal.obj fields := by
          simp only [upgradeStockItem]
          rw [if_neg h]
        rw [h1]
        exact h1
  | int n => simp [upgradeStockItem, RVal.isIntLike]
  | str s => simp [upgradeStockItem, RVal.isIntLike]
  | bool b => simp [upgradeStockItem, RVal.isIntLike]
  | null => simp [upgradeStockItem, RVal.isIntLike]
  | arr l => simp [upgradeStockItem, RVal.isIntLike]

theorem upgradeOpeningItem_idem (v w : RVal) (h : upgradeOpeningItem v = .ok w) :
    upgradeOpeningItem w = .ok w := by
  cases v with
  | obj fields =>
      rw [upgradeOpeningItem] at h
      injection h with h
      subst h
      by_cases hc : (!fields.isEmpty && fields.all fun p => p.2.isIntLike) = true
      · rw [if_pos hc, upgradeOpeningItem]
        simp [RVal.isIntLike]
      · rw [if_neg hc, upgradeOpeningItem]
        simp [hc]
  | int n =>
      rw [upgradeOpeningItem] at h
      by_cases hn : n ≠ 0
      · rw [if_pos hn] at h
        exact Except.noConfusion h
      · rw [if_neg hn] at h
        injection h with h
        subst h
        rw [upgradeOpeningItem, if_neg hn]
  | str s =>
      rw [upgradeOpeningItem] at h
      by_cases hs : s ≠ ""
      · rw [if_pos hs] at h
        exact Except.noConfusion h
      · rw [if_neg hs] at h
        injection h with h
        subst h
        rw [upgradeOpeningItem, if_neg hs]
  | bool b =>
      rw [upgradeOpeningItem] at h
      by_cases hb : b = true
      · rw [if_pos hb] at h
        exact Except.noConfusion h
      · rw [if_neg hb] at h
        injection h with h
        subst h
        rw [upgradeOpeningItem, if_neg hb]
  | null =>
      rw [upgradeOpeningItem] at h
      injection h with h
      subst h
      rfl
  | arr l =>
      rw [upgradeOpeningItem] at h
      by_cases hl : (!l.isEmpty) = true
      · rw [if_pos hl] at h
        exact Except.noConfusion h
      · rw [if_neg hl] at h
        injection h with h
        subst h
        rw [upgradeOpeningItem, if_neg hl]

theorem upgradeOpeningList_idem (l l2 : List (String × RVal))
    (h : upgradeOpeningList l = .ok l2) : upgradeOpeningList l2 = .ok l2 := by
  induction l generalizing l2 with
  | nil =>
      simp [upgradeOpeningList] at h
      subst h
      rfl
  | cons p t ih =>
      rw [upgradeOpeningList] at h
      cases hv : upgradeOpeningItem p.2 with
      | error e => rw [hv] at h; exact Except.noConfusion h
      | ok v =>
          rw [hv] at h
          cases ht : upgradeOpeningList t with
          | error e => rw [ht] at h; exact Except.noConfusion h
          | ok t2 =>
              rw [ht] at h
              injection h with h
              subst h
              simp only [upgradeOpeningList, upgradeOpeningItem_idem p.2 v hv, ih t2 ht]

theorem upgradeEntry_idem (e w : RVal) (h : upgradeEntry e = .ok w) :
    upgradeEntry w = .ok w := by
  cases e with
  | obj fields =>
      rw [upgradeEntry] at h
      injection h with h
      subst h
      rw [upgradeEntry]
      congr 1
      congr 1
      have h1 : (aget (asetd (asetd (asetd (asetd fields "event" (.bool false))
          "event_id" (.str "")) "event_open" (.bool false)) "category" (.str "album"))
          "event").isSome := by
        rw [aget_asetd_ne _ _ _ _ (by decide), aget_asetd_ne _ _ _ _ (by decide),
          aget_asetd_ne _ _ _ _ (by decide), aget_asetd_self]
        rfl
      rw [asetd_of_isSome _ _ _ h1]
      have h2 : (aget (asetd (asetd (asetd (asetd fields "event" (.bool false))
          "event_id" (.str "")) "event_open" (.bool false)) "category" (.str "album"))
          "event_id").isSome := by
        rw [aget_asetd_ne _ _ _ _ (by decide), aget_asetd_ne _ _ _ _ (by decide),
          aget_asetd_self]
        rfl
      rw [asetd_of_isSome _ _ _ h2]
      have h3 : (aget (asetd (asetd (asetd (asetd fields "event" (.bool false))
          "event_id" (.str "")) "event_open" (.bool false)) "category" (.str "album"))
          "event_open").isSome := by
        rw [aget_asetd_ne _ _ _ _ (by decide), aget_asetd_self]
        rfl
      rw [asetd_of_isSome _ _ _ h3]
      have h4 : (aget (asetd (asetd (asetd (asetd fields "event" (.bool false))
          "event_id" (.str "")) "event_open" (.bool false)) "category" (.str "album"))
          "category").isSome := by
        rw [aget_asetd_self]
        rfl
      rw [asetd_of_isSome _ _ _ h4]
  | int n => exact absurd h (by simp [upgradeEntry])
  | str s => exact absurd h (by simp [upgradeEntry])
  | bool b => exact absurd h (by simp [upgradeEntry])
  | null => exact absurd h (by simp [upgradeEntry])
  | arr l => exact absurd h (by simp [upgradeEntry])

theorem upgradeEntryList_idem (l l2 : List RVal) (h : upgradeEntryList l = .ok l2) :
    upgradeEntryList l2 = .ok l2 := by
  induction l generalizing l2 with
  | nil =>
      simp [upgradeEntryList] at h
      subst h
      rfl
  | cons e t ih =>
      rw [upgradeEntryList] at h
      cases hv : upgradeEntry e with
      | error msg => rw [hv] at h; exact Except.noConfusion h
      | ok v =>
          rw [hv] at h
          cases ht : upgradeEntryList t with
          | error msg => rw [ht] at h; exact Except.noConfusion h
          | ok t2 =>
              rw [ht] at h
              injection h with h
              subst h
              simp only [upgradeEntryList, upgradeEntry_idem e v hv, ih t2 ht]

theorem upgradePeriodInfo_idem (pv w : RVal) (h : upgradePeriodInfo pv = .ok w) :
    upgradePeriodInfo w = .ok w := by
  cases pv with
  | obj fields =>
      rw [upgradePeriodInfo] at h
      cases hos : aget fields "opening_stock" with
      | none =>
          simp only [hos] at h
          injection h with h
          subst h
          rw [upgradePeriodInfo, aget_aset_self]
          show Except.ok _ = _
          congr 2
          rw [aset_aset]
      | some os =>
          cases os with
          | obj osf =>
              simp only [hos] at h
              cases hol : upgradeOpeningList osf with
              | error msg => rw [hol] at h; exact Except.noConfusion h
              | ok os2 =>
                  rw [hol] at h
                  injection h with h
                  subst h
                  rw [upgradePeriodInfo, aget_aset_self]
                  simp only [upgradeOpeningList_idem osf os2 hol]
                  show Except.ok _ = _
                  congr 2
                  rw [aset_aset]
          | int n =>
              simp only [hos] at h
              injection h with h
              subst h
              rw [upgradePeriodInfo, aget_aset_self]
              show Except.ok _ = _
              congr 2
              rw [aset_aset]
          | str s =>
              simp only [hos] at h
              injection h with h
              subst h
              rw [upgradePeriodInfo, aget_aset_self]
              show Except.ok _ = _
              congr 2
              rw [aset_aset]
          | bool b =>
              simp only [hos] at h
              injection h with h
              subst h
              rw [upgradePeriodInfo, aget_aset_self]
              show Except.ok _ = _
              congr 2
              rw [aset_aset]
          | null =>
              simp only [hos] at h
              injection h with h
              subst h
              rw [upgradePeriodInfo, aget_aset_self]
              show Except.ok _ = _
              congr 2
              rw [aset_aset]
          | arr l =>
              simp only [hos] at h
              injection h with h
              subst h
              rw [upgradePeriodInfo, aget_aset_self]
              show Except.ok _ = _
              congr 2
              rw [aset_aset]
  | int n => exact absurd h (by simp [upgradePeriodInfo])
  | str s => exact absurd h (by simp [upgradePeriodInfo])
  | bool b => exact absurd h (by simp [upgradePeriodInfo])
  | null => exact absurd h (by simp [upgradePeriodInfo])
  | arr l => exact absurd h (by simp [upgradePeriodInfo])

theorem upgradePeriodList_idem (l l2 : List (String × RVal))
    (h : upgradePeriodList l = .ok l2) : upgradePeriodList l2 = .ok l2 := by
  induction l generalizing l2 with
  | nil =>
      simp [upgradePeriodList] at h
      subst h
      rfl
  | cons p t ih =>
      rw [upgradePeriodList] at h
      cases hv : upgradePeriodInfo p.2 with
      | error msg => rw [hv] at h; exact Except.noConfusion h
      | ok v =>
          rw [hv] at h
          cases ht : upgradePeriodList t with
          | error msg => rw [ht] at h; exact Except.noConfusion h
          | ok t2 =>
              rw [ht] at h
              injection h with h
              subst h
              simp only [upgradePeriodList, upgradePeriodInfo_idem p.2 v hv, ih t2 ht]

theorem periodsAll_idem (p pv : RVal) (h : periodsAll p = .ok pv) :
    periodsAll pv = .ok pv := by
  cases p with
  | obj fields =>
      rw [periodsAll] at h
      cases hl : upgradePeriodList fields with
      | error msg => rw [hl] at h; exact Except.noConfusion h
      | ok fs =>
          rw [hl] at h
          injection h with h
          subst h
          rw [periodsAll, upgradePeriodList_idem fields fs hl]
  | int n => exact absurd h (by simp [periodsAll])
  | str s => exact absurd h (by simp [periodsAll])
  | bool b => exact absurd h (by simp [periodsAll])
  | null => exact absurd h (by simp [periodsAll])
  | arr l => exact absurd h (by simp [periodsAll])

theorem upgradeMetaCategory_idem (v : RVal) :
    upgradeMetaCategory (upgradeMetaCategory v) = upgradeMetaCategory v := by
  cases v with
  | obj fields =>
      by_cases hc : (agetD fields "category" RVal.null).truthy = true
      · have h1 : upgradeMetaCategory (RVal.obj fields) = RVal.obj fields := by
          simp only [upgradeMetaCategory]
          rw [if_pos hc]
        rw [h1]
        exact h1
      · have h1 : upgradeMetaCategory (RVal.obj fields) =
            RVal.obj (aset fields "category" (RVal.str "album")) := by
          simp only [upgradeMetaCategory]
          rw [if_neg hc]
        rw [h1]
        have h2 : (agetD (aset fields "category" (RVal.str "album")) "category"
            RVal.null).truthy = true := by
          rw [agetD, aget_aset_self]
          rfl
        simp only [upgradeMetaCategory]
        rw [if_pos h2]
  | int n => rfl
  | str s => rfl
  | bool b => rfl
  | null => rfl
  | arr l => rfl

theorem upgradeMetaAudit_of_audited (fs la : List (String × RVal))
    (h : aget fs "last_audit" = some (.obj la)) : upgradeMetaAudit (.obj fs) = .obj fs := by
  simp only [upgradeMetaAudit, h]

theorem upgradeMetaAudit_obj (fs : List (String × RVal)) :
    ∃ fa la, upgradeMetaAudit (.obj fs) = .obj fa ∧ aget fa "last_audit" = some (.obj la) := by
  cases haud : aget fs "last_audit" with
  | none =>
      exact ⟨aset fs "last_audit" (.obj []), [], by simp only [upgradeMetaAudit, haud],
        aget_aset_self _ _ _⟩
  | some x =>
      cases x with
      | obj la => exact ⟨fs, la, by simp only [upgradeMetaAudit, haud], haud⟩
      | int n =>
          exact ⟨aset fs "last_audit" (.obj []), [], by simp only [upgradeMetaAudit, haud],
            aget_aset_self _ _ _⟩
      | str s =>
          exact ⟨aset fs "last_audit" (.obj []), [], by simp only [upgradeMetaAudit, haud],
            aget_aset_self _ _ _⟩
      | bool b =>
          exact ⟨aset fs "last_audit" (.obj []), [], by simp only [upgradeMetaAudit, haud],
            aget_aset_self _ _ _⟩
      | null =>
          exact ⟨aset fs "last_audit" (.obj []), [], by simp only [upgradeMetaAudit, haud],
            aget_aset_self _ _ _⟩
      | arr l =>
          exact ⟨aset fs "last_audit" (.obj []), [], by simp only [upgradeMetaAudit, haud],
            aget_aset_self _ _ _⟩

theorem upgradeMetaCategory_obj (fs : List (String × RVal)) :
    ∃ fc, upgradeMetaCategory (.obj fs) = .obj fc ∧
      ∀ k, k ≠ "category" → aget fc k = aget fs k := by
  by_cases hc : (agetD fs "category" RVal.null).truthy = true
  · exact ⟨fs, by simp only [upgradeMetaCategory]; rw [if_pos hc], fun k hk => rfl⟩
  · exact ⟨aset fs "category" (.str "album"),
      by simp only [upgradeMetaCategory]; rw [if_neg hc],
      fun k hk => aget_aset_ne _ _ _ _ hk⟩

/-- The `last_audit` pass is the identity on an entry the upgrader has
already rewritten (audit then category). -/
theorem audit_of_fixed (v : RVal) :
    upgradeMetaAudit (upgradeMetaCategory (upgradeMetaAudit v)) =
      upgradeMetaCategory (upgradeMetaAudit v) := by
  cases v with
  | obj fields =>
      obtain ⟨fa, la, hw, hla⟩ := upgradeMetaAudit_obj fields
      rw [hw]
      obtain ⟨fc, hcc, hkeep⟩ := upgradeMetaCategory_obj fa
      rw [hcc]
      exact upgradeMetaAudit_of_audited fc la (by rw [hkeep _ (by decide), hla])
  | int n => rfl
  | str s => rfl
  | bool b => rfl
  | null => rfl
  | arr l => rfl

theorem metaAuditAll_ok (m md : RVal) (h : metaAuditAll m = .ok md) :
    ∃ mf, m = .obj mf ∧ md = .obj (mf.map fun p => (p.1, upgradeMetaAudit p.2)) := by
  cases m with
  | obj fields =>
      rw [metaAuditAll] at h
      injection h with h
      exact ⟨fields, rfl, h.symm⟩
  | int n => exact absurd h (by simp [metaAuditAll])
  | str s => exact absurd h (by simp [metaAuditAll])
  | bool b => exact absurd h (by simp [metaAuditAll])
  | null => exact absurd h (by simp [metaAuditAll])
  | arr l => exact absurd h (by simp [metaAuditAll])

theorem metaCategoryAll_ok (m md : RVal) (h : metaCategoryAll m = .ok md) :
    ∃ mf, m = .obj mf ∧ md = .obj (mf.map fun p => (p.1, upgradeMetaCategory p.2)) := by
  cases m with
  | obj fields =>
      rw [metaCategoryAll] at h
      injection h with h
      exact ⟨fields, rfl, h.symm⟩
  | int n => exact absurd h (by simp [metaCategoryAll])
  | str s => exact absurd h (by simp [metaCategoryAll])
  | bool b => exact absurd h (by simp [metaCategoryAll])
  | null => exact absurd h (by simp [metaCategoryAll])
  | arr l => exact absurd h (by simp [metaCategoryAll])

/-- Both metadata passes are the identity on a fully-rewritten mapping. -/
theorem metaAuditAll_fixed (mf : List (String × RVal)) :
    metaAuditAll (.obj (mf.map fun p => (p.1, upgradeMetaCategory (upgradeMetaAudit p.2)))) =
      .ok (.obj (mf.map fun p => (p.1, upgradeMetaCategory (upgradeMetaAudit p.2)))) := by
  have hfun : ((fun p : String × RVal => (p.1, upgradeMetaAudit p.2)) ∘
      fun p : String × RVal => (p.1, upgradeMetaCategory (upgradeMetaAudit p.2))) =
      fun p : String × RVal => (p.1, upgradeMetaCategory (upgradeMetaAudit p.2)) := by
    funext p
    show (p.1, upgradeMetaAudit (upgradeMetaCategory (upgradeMetaAudit p.2))) = _
    rw [audit_of_fixed]
  rw [metaAuditAll, List.map_map, hfun]

theorem metaCategoryAll_fixed (mf : List (String × RVal)) :
    metaCategoryAll
        (.obj (mf.map fun p => (p.1, upgradeMetaCategory (upgradeMetaAudit p.2)))) =
      .ok (.obj (mf.map fun p => (p.1, upgradeMetaCategory (upgradeMetaAudit p.2)))) := by
  have hfun : ((fun p : String × RVal => (p.1, upgradeMetaCategory p.2)) ∘
      fun p : String × RVal => (p.1, upgradeMetaCategory (upgradeMetaAudit p.2))) =
      fun p : String × RVal => (p.1, upgradeMetaCategory (upgradeMetaAudit p.2)) := by
    funext p
    show (p.1, upgradeMetaCategory (upgradeMetaCategory (upgradeMetaAudit p.2))) = _
    rw [upgradeMetaCategory_idem]
  rw [metaCategoryAll, List.map_map, hfun]

theorem historyUpgrade_idem (h0 hv : RVal) (h : historyUpgrade h0 = .ok hv) :
    historyUpgrade hv = .ok hv := by
  cases h0 with
  | arr es =>
      rw [historyUpgrade] at h
      cases hl : upgradeEntryList es with
      | error msg => rw [hl] at h; exact Except.noConfusion h
      | ok es2 =>
          rw [hl] at h
          injection h with h
          subst h
          rw [historyUpgrade, upgradeEntryList_idem es es2 hl]
  | obj fields =>
      cases fields with
      | nil =>
          rw [historyUpgrade] at h
          injection h with h
          subst h
          rfl
      | cons a t => exact absurd h (by simp [historyUpgrade])
  | str s =>
      by_cases hs : s = ""
      · subst hs
        rw [historyUpgrade] at h
        simp only [if_pos rfl] at h
        injection h with h
        subst h
        rfl
      · rw [historyUpgrade] at h
        simp [hs] at h
  | int n => exact absurd h (by simp [historyUpgrade])
  | bool b => exact absurd h (by simp [historyUpgrade])
  | null => exact absurd h (by simp [historyUpgrade])

theorem schemaMeta_ok (d d3 : RObj) (h : schemaMeta d = .ok d3) :
    ∃ md, metaAuditAll (agetD d "item_metadata" (.obj [])) = .ok md ∧
      d3 = aset d "item_metadata" md := by
  rw [schemaMeta] at h
  cases hm : metaAuditAll (agetD d "item_metadata" (.obj [])) with
  | error e => rw [hm] at h; exact Except.noConfusion h
  | ok md =>
      rw [hm] at h
      injection h with h
      exact ⟨md, rfl, h.symm⟩

theorem schemaPeriods_ok (d d4 : RObj) (h : schemaPeriods d = .ok d4) :
    ∃ pv, periodsAll (agetD d "periods" (.obj [])) = .ok pv ∧
      d4 = (match aget d "periods" with | some _ => aset d "periods" pv | none => d) := by
  rw [schemaPeriods] at h
  cases hp : periodsAll (agetD d "periods" (.obj [])) with
  | error e => rw [hp] at h; exact Except.noConfusion h
  | ok pv =>
      rw [hp] at h
      injection h with h
      exact ⟨pv, rfl, h.symm⟩

theorem schemaHistory_ok (d d5 : RObj) (h : schemaHistory d = .ok d5) :
    ∃ hv, historyUpgrade (agetD d "history" (.arr [])) = .ok hv ∧
      d5 = (match aget d "history" with | some _ => aset d "history" hv | none => d) := by
  rw [schemaHistory] at h
  cases hp : historyUpgrade (agetD d "history" (.arr [])) with
  | error e => rw [hp] at h; exact Except.noConfusion h
  | ok hv =>
      rw [hp] at h
      injection h with h
      exact ⟨hv, rfl, h.symm⟩

theorem schemaMetaCat_ok (d d2 : RObj) (h : schemaMetaCat d = .ok d2) :
    ∃ md, metaCategoryAll (agetD d "item_metadata" (.obj [])) = .ok md ∧
      d2 = aset d "item_metadata" md := by
  rw [schemaMetaCat] at h
  cases hm : metaCategoryAll (agetD d "item_metadata" (.obj [])) with
  | error e => rw [hm] at h; exact Except.noConfusion h
  | ok md =>
      rw [hm] at h
      injection h with h
      exact ⟨md, rfl, h.symm⟩

theorem ensureNewSchemaRaw_ok_main (d d2 : RObj) (s : List (String × RVal))
    (hs : aget d "stock" = some (.obj s)) (h : ensureNewSchemaRaw d = .ok d2) :
    ∃ d3 d4 d5,
      schemaMeta (asetd (aset d "stock" (.obj (s.map fun p => (p.1, upgradeStockItem p.2))))
        "item_metadata" (.obj [])) = .ok d3 ∧
      schemaPeriods d3 = .ok d4 ∧ schemaHistory d4 = .ok d5 ∧ schemaMetaCat d5 = .ok d2 := by
  rw [ensureNewSchemaRaw] at h
  simp only [hs] at h
  cases h3 : schemaMeta (asetd (aset d "stock"
      (.obj (s.map fun p => (p.1, upgradeStockItem p.2)))) "item_metadata" (.obj [])) with
  | error e =>
      simp only [h3] at h
      exact Except.noConfusion h
  | ok d3 =>
      simp only [h3] at h
      cases h4 : schemaPeriods d3 with
      | error e =>
          simp only [h4] at h
          exact Except.noConfusion h
      | ok d4 =>
          simp only [h4] at h
          cases h5 : schemaHistory d4 with
          | error e =>
              simp only [h5] at h
              exact Except.noConfusion h
          | ok d5 =>
              simp only [h5] at h
              exact ⟨d3, d4, d5, rfl, h4, h5, h⟩

/-- C5 (amended): on every document whose `stock` field is present and is a
mapping, a successful run of `_ensure_new_schema` is idempotent — running the
upgrader again on the result succeeds and changes nothing.  (Without that
proviso the claim is false: see the counterexample, where the early-return
branch skips the `item_metadata` setdefault that a second run then applies.) -/
theorem ensureNewSchemaRaw_idem (d d2 : RObj) (s : List (String × RVal))
    (hs : aget d "stock" = some (.obj s)) (hrun : ensureNewSchemaRaw d = .ok d2) :
    ensureNewSchemaRaw d2 = .ok d2 := by
  obtain ⟨d3, d4, d5, h3, h4, h5, h6⟩ := ensureNewSchemaRaw_ok_main d d2 s hs hrun
  obtain ⟨md, hmd, hd3⟩ := schemaMeta_ok _ d3 h3
  obtain ⟨pv, hpv, hd4⟩ := schemaPeriods_ok d3 d4 h4
  obtain ⟨hv, hhv, hd5⟩ := schemaHistory_ok d4 d5 h5
  obtain ⟨md2, hmd2, hd2⟩ := schemaMetaCat_ok d5 d2 h6
  obtain ⟨m0f, hm0, hmdv⟩ := metaAuditAll_ok _ md hmd
  -- key bookkeeping through the pass chain
  have hB_stock : aget (asetd (aset d "stock"
      (.obj (s.map fun p => (p.1, upgradeStockItem p.2)))) "item_metadata" (.obj []))
      "stock" = some (.obj (s.map fun p => (p.1, upgradeStockItem p.2))) := by
    rw [aget_asetd_ne _ _ _ _ (by decide)]
    exact aget_aset_self _ _ _
  have hd3_stock : aget d3 "stock" =
      some (.obj (s.map fun p => (p.1, upgradeStockItem p.2))) := by
    rw [hd3, aget_aset_ne _ _ _ _ (by decide), hB_stock]
  have hd3_md : aget d3 "item_metadata" = some md := by
    rw [hd3]
    exact aget_aset_self _ _ _
  have hd3_periods : aget d3 "periods" = aget d "periods" := by
    rw [hd3, aget_aset_ne _ _ _ _ (by decide), aget_asetd_ne _ _ _ _ (by decide),
      aget_aset_ne _ _ _ _ (by decide)]
  have hd3_history : aget d3 "history" = aget d "history" := by
    rw [hd3, aget_aset_ne _ _ _ _ (by decide), aget_asetd_ne _ _ _ _ (by decide),
      aget_aset_ne _ _ _ _ (by decide)]
  have h43 : ∀ k, k ≠ "periods" → aget d4 k = aget d3 k := by
    intro k hk
    rw [hd4]
    cases hper : aget d3 "periods" with
    | some p0 =>
        simp only [hper]
        exact aget_aset_ne _ _ _ _ hk
    | none => simp only [hper]
  have h54 : ∀ k, k ≠ "history" → aget d5 k = aget d4 k := by
    intro k hk
    rw [hd5]
    cases hhis : aget d4 "history" with
    | some h0 =>
        simp only [hhis]
        exact aget_aset_ne _ _ _ _ hk
    | none => simp only [hhis]
  have h25 : ∀ k, k ≠ "item_metadata" → aget d2 k = aget d5 k := by
    intro k hk
    rw [hd2]
    exact aget_aset_ne _ _ _ _ hk
  have F1 : aget d2 "stock" = some (.obj (s.map fun p => (p.1, upgradeStockItem p.2))) := by
    rw [h25 _ (by decide), h54 _ (by decide), h43 _ (by decide), hd3_stock]
  have Fmd5 : aget d5 "item_metadata" = some md := by
    rw [h54 _ (by decide), h43 _ (by decide), hd3_md]
  have F2 : aget d2 "item_metadata" = some md2 := by
    rw [hd2]
    exact aget_aset_self _ _ _
  have Fper : aget d2 "periods" = aget d4 "periods" := by
    rw [h25 _ (by decide), h54 _ (by decide)]
  have Fhis : aget d2 "history" = aget d5 "history" := h25 _ (by decide)
  -- the final metadata value is the per-entry audit+category rewrite
  have hmd2arg : agetD d5 "item_metadata" (.obj []) = md := by
    rw [agetD, Fmd5]
    rfl
  have hmd2v : md2 = .obj (m0f.map fun p =>
      (p.1, upgradeMetaCategory (upgradeMetaAudit p.2))) := by
    rw [hmd2arg] at hmd2
    obtain ⟨mf, hmf, hmd2v0⟩ := metaCategoryAll_ok md md2 hmd2
    rw [hmdv] at hmf
    injection hmf with hmf
    rw [hmd2v0, ← hmf, List.map_map]
    rfl
  -- second-run facts
  have hfidem : ((fun p : String × RVal => (p.1, upgradeStockItem p.2)) ∘
      fun p : String × RVal => (p.1, upgradeStockItem p.2)) =
      fun p : String × RVal => (p.1, upgradeStockItem p.2) := by
    funext p
    show (p.1, upgradeStockItem (upgradeStockItem p.2)) = _
    rw [upgradeStockItem_idem]
  have G1 : aset d2 "stock" (.obj (s.map fun p => (p.1, upgradeStockItem p.2))) = d2 :=
    aset_self _ _ _ F1
  have G2 : asetd d2 "item_metadata" (.obj []) = d2 :=
    asetd_of_isSome _ _ _ (by rw [F2]; rfl)
  have F2v : aget d2 "item_metadata" = some (.obj (m0f.map fun p =>
      (p.1, upgradeMetaCategory (upgradeMetaAudit p.2)))) := by
    rw [F2, hmd2v]
  have GMeta : schemaMeta d2 = .ok d2 := by
    rw [schemaMeta]
    have harg : agetD d2 "item_metadata" (.obj []) = md2 := by
      rw [agetD, F2]
      rfl
    rw [harg, hmd2v, metaAuditAll_fixed]
    show Except.ok _ = _
    exact congrArg Except.ok (aset_self _ _ _ F2v)
  have GPer : schemaPeriods d2 = .ok d2 := by
    rw [schemaPeriods]
    cases hper : aget d3 "periods" with
    | some p0 =>
        have hd4per : aget d4 "periods" = some pv := by
          rw [hd4]
          simp only [hper]
          exact aget_aset_self _ _ _
        have hd2per : aget d2 "periods" = some pv := by rw [Fper, hd4per]
        have harg : agetD d2 "periods" (.obj []) = pv := by
          rw [agetD, hd2per]
          rfl
        have hpv0 : periodsAll p0 = .ok pv := by
          simp only [agetD, hper, Option.getD_some] at hpv
          exact hpv
        rw [harg, periodsAll_idem _ _ hpv0]
        show Except.ok _ = _
        congr 1
        simp only [hd2per]
        exact aset_self _ _ _ hd2per
    | none =>
        have hd4per : aget d4 "periods" = none := by
          rw [hd4]
          simp only [hper]
        have hd2per : aget d2 "periods" = none := by rw [Fper, hd4per]
        have harg : agetD d2 "periods" (.obj []) = .obj [] := by
          rw [agetD, hd2per]
          rfl
        rw [harg]
        have hnil : periodsAll (.obj []) = .ok (.obj []) := rfl
        rw [hnil]
        show Except.ok _ = _
        congr 1
        simp only [hd2per]
  have GHist : schemaHistory d2 = .ok d2 := by
    rw [schemaHistory]
    cases hhis : aget d4 "history" with
    | some h0 =>
        have hd5his : aget d5 "history" = some hv := by
          rw [hd5]
          simp only [hhis]
          exact aget_aset_self _ _ _
        have hd2his : aget d2 "history" = some hv := by rw [Fhis, hd5his]
        have harg : agetD d2 "history" (.arr []) = hv := by
          rw [agetD, hd2his]
          rfl
        have hhv0 : historyUpgrade h0 = .ok hv := by
          simp only [agetD, hhis, Option.getD_some] at hhv
          exact hhv
        rw [harg, historyUpgrade_idem _ _ hhv0]
        show Except.ok _ = _
        congr 1
        simp only [hd2his]
        exact aset_self _ _ _ hd2his
    | none =>
        have hd5his : aget d5 "history" = none := by
          rw [hd5]
          simp only [hhis]
        have hd2his : aget d2 "history" = none := by rw [Fhis, hd5his]
        have harg : agetD d2 "history" (.arr []) = .arr [] := by
          rw [agetD, hd2his]
          rfl
        rw [harg]
        have hnil : historyUpgrade (.arr []) = .ok (.arr []) := rfl
        rw [hnil]
        show Except.ok _ = _
        congr 1
        simp only [hd2his]
  have GCat : schemaMetaCat d2 = .ok d2 := by
    rw [schemaMetaCat]
    have harg : agetD d2 "item_metadata" (.obj []) = md2 := by
      rw [agetD, F2]
      rfl
    rw [harg, hmd2v, metaCategoryAll_fixed]
    show Except.ok _ = _
    exact congrArg Except.ok (aset_self _ _ _ F2v)
  rw [ensureNewSchemaRaw]
  simp only [F1, List.map_map, hfidem, G1, G2, GMeta, GPer, GHist]
  exact GCat

/-- C5 counterexample: on the empty document (whose `stock` is absent) the
upgrader resets `stock` and returns early; a second run then additionally
inserts the `item_metadata` key, so applying the upgrader twice differs from
applying it once. -/
theorem ensureNewSchemaRaw_not_idempotent :
    ensureNewSchemaRaw [] = .ok [("stock", RVal.obj [])] ∧
      ensureNewSchemaRaw [("stock", RVal.obj [])] =
        .ok [("stock", RVal.obj []), ("item_metadata", RVal.obj [])] ∧
      [("stock", RVal.obj [])] ≠ [("stock", RVal.obj []), ("item_metadata", RVal.obj [])] :=
  ⟨rfl, rfl, fun h => absurd (congrArg List.length h) (by decide)⟩

def isOkE (e : Except String RObj) : Bool :=
  match e with
  | .ok _ => true
  | .error _ => false

/-- C8 counterexample: with `stock` not a mapping the run returns early, so
the history entry `{}` is left without an `event` field; and the upgrader can
raise — a truthy non-mapping `opening_stock` item makes it fail. -/
theorem ensureNewSchemaRaw_totality_counterexample :
    ensureNewSchemaRaw [("stock", RVal.int 5), ("history", RVal.arr [RVal.obj []])] =
        .ok [("stock", RVal.obj []), ("history", RVal.arr [RVal.obj []])] ∧
      aget ([] : RObj) "event" = none ∧
      isOkE (ensureNewSchemaRaw [("stock", RVal.obj []),
        ("periods", RVal.obj [("2024-01", RVal.obj [("opening_stock",
          RVal.obj [("X", RVal.int 5)])])])]) = false :=
  ⟨rfl, rfl, rfl⟩

theorem agetD_asetd_ne {κ α : Type} [DecidableEq κ] (m : List (κ × α)) (k k' : κ)
    (v d : α) (h : k' ≠ k) : agetD (asetd m k v) k' d = agetD m k' d := by
  rw [agetD, agetD, aget_asetd_ne _ _ _ _ h]

theorem upgradeEntryList_fields (es es2 : List RVal) (h : upgradeEntryList es = .ok es2) :
    es2.length = es.length ∧
      ∀ j (hj : j < es.length) (hj2 : j < es2.length), ∃ fs fs2,
        es.get ⟨j, hj⟩ = .obj fs ∧ es2.get ⟨j, hj2⟩ = .obj fs2 ∧
        aget fs2 "event" = some (agetD fs "event" (.bool false)) ∧
        aget fs2 "event_id" = some (agetD fs "event_id" (.str "")) ∧
        aget fs2 "event_open" = some (agetD fs "event_open" (.bool false)) ∧
        aget fs2 "category" = some (agetD fs "category" (.str "album")) := by
  induction es generalizing es2 with
  | nil =>
      simp [upgradeEntryList] at h
      subst h
      exact ⟨rfl, fun j hj => absurd hj (Nat.not_lt_zero j)⟩
  | cons e t ih =>
      rw [upgradeEntryList] at h
      cases hv : upgradeEntry e with
      | error msg => rw [hv] at h; exact Except.noConfusion h
      | ok v =>
          rw [hv] at h
          cases ht : upgradeEntryList t with
          | error msg => rw [ht] at h; exact Except.noConfusion h
          | ok t2 =>
              rw [ht] at h
              injection h with h
              subst h
              obtain ⟨hlen, hpt⟩ := ih t2 ht
              refine ⟨by simp [hlen], ?_⟩
              intro j hj hj2
              cases j with
              | zero =>
                  cases e with
                  | obj fs =>
                      rw [upgradeEntry] at hv
                      injection hv with hv
                      refine ⟨fs, asetd (asetd (asetd (asetd fs "event" (.bool false))
                        "event_id" (.str "")) "event_open" (.bool false)) "category"
                        (.str "album"), rfl, ?_, ?_, ?_, ?_, ?_⟩
                      · show v = _
                        rw [← hv]
                      · rw [aget_asetd_ne _ _ _ _ (by decide),
                          aget_asetd_ne _ _ _ _ (by decide),
                          aget_asetd_ne _ _ _ _ (by decide), aget_asetd_self]
                      · rw [aget_asetd_ne _ _ _ _ (by decide),
                          aget_asetd_ne _ _ _ _ (by decide), aget_asetd_self,
                          agetD_asetd_ne _ _ _ _ _ (by decide)]
                      · rw [aget_asetd_ne _ _ _ _ (by decide), aget_asetd_self,
                          agetD_asetd_ne _ _ _ _ _ (by decide),
                          agetD_asetd_ne _ _ _ _ _ (by decide)]
                      · rw [aget_asetd_self, agetD_asetd_ne _ _ _ _ _ (by decide),
                          agetD_asetd_ne _ _ _ _ _ (by decide),
                          agetD_asetd_ne _ _ _ _ _ (by decide)]
                  | int n => exact absurd hv (by simp [upgradeEntry])
                  | str s => exact absurd hv (by simp [upgradeEntry])
                  | bool b => exact absurd hv (by simp [upgradeEntry])
                  | null => exact absurd hv (by simp [upgradeEntry])
                  | arr l => exact absurd hv (by simp [upgradeEntry])
              | succ j =>
                  exact hpt j (Nat.lt_of_succ_lt_succ hj) (Nat.lt_of_succ_lt_succ hj2)

/-- C8 (amended): the upgrader run on a document whose `stock` field is
absent or not a mapping resets `stock` to `{}` and returns at once, leaving
everything else (history included) untouched; on a document whose `stock` is
a mapping, a run that completes without raising leaves every history entry
with the fields `event`, `event_id`, `event_open` and `category` present,
keeping present values and defaulting missing ones to `false`, `""`, `false`
and `"album"`.  (The run can raise on malformed values, e.g. a truthy
non-mapping `opening_stock` item — see the counterexample.) -/
theorem ensureNewSchemaRaw_defaults (d : RObj) :
    ((∀ s, aget d "stock" ≠ some (.obj s)) →
      ensureNewSchemaRaw d = .ok (aset d "stock" (.obj []))) ∧
      (∀ s d2 es, aget d "stock" = some (.obj s) → ensureNewSchemaRaw d = .ok d2 →
        aget d "history" = some (.arr es) →
        ∃ es2, aget d2 "history" = some (.arr es2) ∧ es2.length = es.length ∧
          ∀ j (hj : j < es.length) (hj2 : j < es2.length), ∃ fs fs2,
            es.get ⟨j, hj⟩ = .obj fs ∧ es2.get ⟨j, hj2⟩ = .obj fs2 ∧
            aget fs2 "event" = some (agetD fs "event" (.bool false)) ∧
            aget fs2 "event_id" = some (agetD fs "event_id" (.str "")) ∧
            aget fs2 "event_open" = some (agetD fs "event_open" (.bool false)) ∧
            aget fs2 "category" = some (agetD fs "category" (.str "album"))) := by
  constructor
  · intro hns
    rw [ensureNewSchemaRaw]
    cases hg : aget d "stock" with
    | none => rfl
    | some v =>
        cases v with
        | obj fs => exact absurd hg (hns fs)
        | int n => rfl
        | str s => rfl
        | bool b => rfl
        | null => rfl
        | arr l => rfl
  · intro s d2 es hs hrun hh
    obtain ⟨d3, d4, d5, h3, h4, h5, h6⟩ := ensureNewSchemaRaw_ok_main d d2 s hs hrun
    obtain ⟨md, hmd, hd3⟩ := schemaMeta_ok _ d3 h3
    obtain ⟨pv, hpv, hd4⟩ := schemaPeriods_ok d3 d4 h4
    obtain ⟨hv, hhv, hd5⟩ := schemaHistory_ok d4 d5 h5
    obtain ⟨md2, hmd2, hd2⟩ := schemaMetaCat_ok d5 d2 h6
    have hd3_history : aget d3 "history" = aget d "history" := by
      rw [hd3, aget_aset_ne _ _ _ _ (by decide), aget_asetd_ne _ _ _ _ (by decide),
        aget_aset_ne _ _ _ _ (by decide)]
    have hd4_history : aget d4 "history" = some (.arr es) := by
      rw [hd4]
      cases hper : aget d3 "periods" with
      | some p0 =>
          simp only [hper]
          rw [aget_aset_ne _ _ _ _ (by decide), hd3_history, hh]
      | none =>
          simp only [hper]
          rw [hd3_history, hh]
    have hhv2 : historyUpgrade (.arr es) = .ok hv := by
      simp only [agetD, hd4_history, Option.getD_some] at hhv
      exact hhv
    rw [historyUpgrade] at hhv2
    cases hel : upgradeEntryList es with
    | error msg => rw [hel] at hhv2; exact Except.noConfusion hhv2
    | ok es2 =>
        rw [hel] at hhv2
        injection hhv2 with hhv2
        have hd5_history : aget d5 "history" = some (.arr es2) := by
          rw [hd5]
          simp only [hd4_history]
          rw [aget_aset_self, ← hhv2]
        have hd2_history : aget d2 "history" = some (.arr es2) := by
          rw [hd2, aget_aset_ne _ _ _ _ (by decide), hd5_history]
        obtain ⟨hlen, hpt⟩ := upgradeEntryList_fields es es2 hel
        exact ⟨es2, hd2_history, hlen, hpt⟩

/-- A legacy-layout raw document: flat `location → qty` stock. -/
def rawLegacyDoc : RObj := [("stock", RVal.obj [("X", RVal.obj [("Seoul", RVal.int 3)])])]

/-- The same document after one upgrader run (option-wrapped, metadata key
inserted). -/
def rawLegacyDocUp : RObj :=
  [("stock", RVal.obj [("X", RVal.obj [("", RVal.obj [("Seoul", RVal.int 3)])])]),
    ("item_metadata", RVal.obj [])]

/-- Witness for the amended C5: one run on a legacy document, then a second
run that changes nothing. -/
theorem ensureNewSchemaRaw_idem_witness :
    aget rawLegacyDoc "stock" = some (RVal.obj [("X", RVal.obj [("Seoul", RVal.int 3)])]) ∧
      ensureNewSchemaRaw rawLegacyDoc = .ok rawLegacyDocUp ∧
      ensureNewSchemaRaw rawLegacyDocUp = .ok rawLegacyDocUp :=
  ⟨rfl, rfl, ensureNewSchemaRaw_idem rawLegacyDoc rawLegacyDocUp
    [("X", RVal.obj [("Seoul", RVal.int 3)])] rfl rfl⟩

/-- A raw document whose history entry misses the event/category fields. -/
def rawHistDoc : RObj :=
  [("stock", RVal.obj []), ("history", RVal.arr [RVal.obj [("type", RVal.str "in")]])]

/-- The same document after one upgrader run. -/
def rawHistDocUp : RObj :=
  [("stock", RVal.obj []),
    ("history", RVal.arr [RVal.obj [("type", RVal.str "in"), ("event", RVal.bool false),
      ("event_id", RVal.str ""), ("event_open", RVal.bool false),
      ("category", RVal.str "album")]]),
    ("item_metadata", RVal.obj [])]

/-! ## Reconciliation pull (`sync_google_drive` in `src/inventory_gui.py`)

Both sides are documents of the current schema (`_read_google_payload`
reconstructs the remote side into the same shape).  The UI steps around the
core loop — the confirmation dialog, the sheet fetch and the labeled backup —
are out of scope; the embedding covers `_build_stock_snapshot`, the artist
merge, and the per-key diff loop. -/

/-- Snapshot key `(category, item, option, location)`. -/
abbrev SKey := String × String × String × String

/-- A `_build_stock_snapshot` value `{qty, artist, category}`. -/
structure SnapInfo where
  qty : Int
  artist : String
  category : String
  deriving DecidableEq, Repr

/-- The default `{"qty": 0, "artist": "", "category": "album"}` used for a
side that misses a key. -/
def snapDefault : SnapInfo := { qty := 0, artist := "", category := "album" }

/-- `metadata.get(item, {}).get("artist", "")`. -/
def snapArtist (d : Doc) (item : String) : String :=
  (agetD d.item_metadata item {}).artist

/-- `normalize_category(metadata.get(item, {}).get("category", "album"))` —
an absent entry or category is `""` in the model, and
`normalize_category("")` = `normalize_category("album")` = `"album"`. -/
def snapCategory (d : Doc) (item : String) : String :=
  normalizeCategory (agetD d.item_metadata item {}).category

/-- The snapshot value stored per cell:
`{"qty": int(qty), "artist": artist, "category": category}`. -/
def snapVal (d : Doc) (i : String) (q : Int) : SnapInfo :=
  { qty := q, artist := snapArtist d i, category := snapCategory d i }

/-- `_build_stock_snapshot(data)`: every stored stock cell keyed by
`(category, item, option or "", location or "")` (`or ""` is the identity on
strings), written into a dict by assignment. -/
def buildStockSnapshot (d : Doc) : List (SKey × SnapInfo) :=
  d.stock.foldl
    (fun acc p =>
      p.2.foldl
        (fun acc q =>
          q.2.foldl
            (fun acc r => aset acc (snapCategory d p.1, p.1, q.1, r.1) (snapVal d p.1 r.2))
            acc)
        acc)
    []

/-- Python `<=` on 4-tuples of strings (used by `sorted`). -/
def skeyLe (a b : SKey) : Bool :=
  if a.1 ≠ b.1 then strLt a.1 b.1
  else if a.2.1 ≠ b.2.1 then strLt a.2.1 b.2.1
  else if a.2.2.1 ≠ b.2.2.1 then strLt a.2.2.1 b.2.2.1
  else strLt a.2.2.2 b.2.2.2 || (a.2.2.2 = b.2.2.2)

/-- Insert into a sorted list (ordinary insertion sort step). -/
def insSorted {α : Type} (le : α → α → Bool) (x : α) : List α → List α
  | [] => [x]
  | y :: t => if le x y then x :: y :: t else y :: insSorted le x t

/-- Insertion sort — the model of Python `sorted`: on the distinct union
keys under the total lexicographic tuple order the sorted permutation is
unique, so any sort yields the same list. -/
def insSort {α : Type} (le : α → α → Bool) : List α → List α
  | [] => []
  | x :: t => insSorted le x (insSort le t)

theorem insSorted_perm {α : Type} (le : α → α → Bool) (x : α) (l : List α) :
    (insSorted le x l).Perm (x :: l) := by
  induction l with
  | nil => exact List.Perm.refl _
  | cons y t ih =>
      rw [insSorted]
      by_cases h : le x y = true
      · rw [if_pos h]
      · rw [if_neg h]
        exact (List.Perm.cons y ih).trans (List.Perm.swap x y t)

theorem insSort_perm {α : Type} (le : α → α → Bool) (l : List α) :
    (insSort le l).Perm l := by
  induction l with
  | nil => exact List.Perm.refl _
  | cons x t ih => exact (insSorted_perm le x (insSort le t)).trans (List.Perm.cons x ih)

/-- `sorted(set(local_snapshot) | set(google_snapshot))`. -/
def unionKeys (l g : List (SKey × SnapInfo)) : List SKey :=
  insSort skeyLe ((l.map Prod.fst) ++ (g.map Prod.fst)).dedup

/-- One step of the artist-merge loop:
`self.data.setdefault("item_metadata", {}).setdefault(item, {})["artist"] =
meta["artist"]`, guarded by the truthiness of `meta.get("artist")`. -/
def mergeStep (md : List (String × MetaInfo)) : String × MetaInfo →
    List (String × MetaInfo)
  | (item, mi) =>
    if mi.artist ≠ "" then
      aset (asetd md item {}) item { agetD (asetd md item {}) item {} with artist := mi.artist }
    else md

/-- The artist-merge loop: every remote metadata entry with a non-empty
artist overwrites the local artist. -/
def mergeArtists (dLoc g : Doc) : Doc :=
  { dLoc with item_metadata := g.item_metadata.foldl mergeStep dLoc.item_metadata }

/-- The `Transaction(...)` the loop synthesizes for key `k` (only evaluated
when `diff ≠ 0` and at least one side carries an artist — with both sides
empty the Python code instead crashes calling `determine_artist` with a
missing positional argument). -/
def mkSyncTx (li gi : SnapInfo) (k : SKey) (now nowPeriod nowDay nowYear actor : String) :
    Tx :=
  { type := if gi.qty - li.qty > 0 then "in" else "out"
    artist := if gi.artist ≠ "" then gi.artist else li.artist
    item := k.2.1
    category := normalizeCategory (if gi.category ≠ "" then gi.category
      else if li.category ≠ "" then li.category else "album")
    option := k.2.2.1
    location := k.2.2.2
    quantity := |gi.qty - li.qty|
    timestamp := now
    actor := actor
    description := "Google Drive 수정"
    period := nowPeriod
    day := nowDay
    year := nowYear }

/-- The entry the loop appends for key `k`, if any (`None` when the two
quantities agree). -/
def synthEntry (lsnap gsnap : List (SKey × SnapInfo)) (now nowPeriod nowDay nowYear
    actor : String) (k : SKey) : Option Entry :=
  let li := agetD lsnap k snapDefault
  let gi := agetD gsnap k snapDefault
  if gi.qty - li.qty = 0 then none
  else some (txToDict (mkSyncTx li gi k now nowPeriod nowDay nowYear actor))

/-- How `sync_google_drive` can abort mid-loop. -/
inductive SyncAbort where
  | missingArtist (key : SKey)
  | recordFailed (key : SKey) (e : RecordErr)
  deriving DecidableEq, Repr

/-- The per-key loop of `sync_google_drive`.  `missingArtist` models the
uncaught `TypeError` from `determine_artist(self.data, item)` — the function
takes three positional arguments, so the call itself raises the moment both
snapshot artists are falsy; `recordFailed` models the `except` branch that
shows an error box and returns.  On abort the document mutated so far is
carried in the error, matching Python's in-place mutation. -/
def syncLoop (d : Doc) (lsnap gsnap : List (SKey × SnapInfo)) (keys : List SKey)
    (now nowPeriod nowDay nowYear actor : String) (changes : Nat) :
    Except (SyncAbort × Doc) (Doc × Nat) :=
  match keys with
  | [] => .ok (d, changes)
  | k :: rest =>
      let li := agetD lsnap k snapDefault
      let gi := agetD gsnap k snapDefault
      if gi.qty - li.qty = 0 then
        syncLoop d lsnap gsnap rest now nowPeriod nowDay nowYear actor changes
      else
        if gi.artist = "" ∧ li.artist = "" then .error (.missingArtist k, d)
        else
          match recordTransaction d (mkSyncTx li gi k now nowPeriod nowDay nowYear actor)
              true now with
          | (some e, d2) => .error (.recordFailed k e, d2)
          | (none, d2) =>
              syncLoop d2 lsnap gsnap rest now nowPeriod nowDay nowYear actor (changes + 1)

/-- The pull (`sync_google_drive` core): build both snapshots, merge remote
artists, then replay the per-key differences through `record_transaction`
with `allow_negative=True`.  `now`/`nowPeriod`/`nowDay`/`nowYear` are the
renderings of the single `datetime.now()` the loop takes. -/
def syncPull (dLoc g : Doc) (now nowPeriod nowDay nowYear actor : String) :
    Except (SyncAbort × Doc) (Doc × Nat) :=
  syncLoop (mergeArtists dLoc g) (buildStockSnapshot dLoc) (buildStockSnapshot g)
    (unionKeys (buildStockSnapshot dLoc) (buildStockSnapshot g))
    now nowPeriod nowDay nowYear actor 0

deriving instance DecidableEq for Except

/-! ### Generic association-list and sum lemmas for the pull proof -/

theorem mem_keys_of_aget {κ α : Type} [DecidableEq κ] (m : List (κ × α)) (k : κ) (v : α)
    (h : aget m k = some v) : k ∈ m.map Prod.fst := by
  induction m with
  | nil => exact absurd h (by simp [aget])
  | cons p t ih =>
      obtain ⟨k₀, v₀⟩ := p
      by_cases hk : k₀ = k
      · subst hk
        exact List.mem_cons_self _ _
      · rw [aget, if_neg hk] at h
        exact List.mem_cons_of_mem _ (ih h)

/-- Sum of an integer-valued function over a key list. -/
def isum (keys : List SKey) (f : SKey → Int) : Int :=
  (keys.map f).sum

theorem isum_nil (f : SKey → Int) : isum [] f = 0 := rfl

theorem isum_cons (k : SKey) (keys : List SKey) (f : SKey → Int) :
    isum (k :: keys) f = f k + isum keys f := by
  simp [isum]

theorem isum_zero (keys : List SKey) (f : SKey → Int) (h : ∀ k ∈ keys, f k = 0) :
    isum keys f = 0 := by
  induction keys with
  | nil => rfl
  | cons k t ih =>
      rw [isum_cons, h k (List.mem_cons_self _ _), ih fun j hj => h j (List.mem_cons_of_mem _ hj)]
      ring

theorem isum_single (keys : List SKey) (f : SKey → Int) (k₀ : SKey) (hnd : keys.Nodup)
    (hk : k₀ ∈ keys) (hz : ∀ k ∈ keys, k ≠ k₀ → f k = 0) : isum keys f = f k₀ := by
  induction keys with
  | nil => exact absurd hk (List.not_mem_nil k₀)
  | cons k t ih =>
      rw [isum_cons]
      rcases List.mem_cons.mp hk with h0 | h0
      · subst h0
        rw [isum_zero t f fun j hj => hz j (List.mem_cons_of_mem _ hj)
          fun hej => (List.nodup_cons.mp hnd).1 (hej ▸ hj)]
        ring
      · rw [hz k (List.mem_cons_self _ _)
          fun he => (List.nodup_cons.mp hnd).1 (he ▸ h0),
          ih (List.nodup_cons.mp hnd).2 h0 fun j hj => hz j (List.mem_cons_of_mem _ hj)]
        ring

theorem isum_sub (keys : List SKey) (f g : SKey → Int) :
    isum keys (fun k => f k - g k) = isum keys f - isum keys g := by
  induction keys with
  | nil => rfl
  | cons k t ih =>
      rw [isum_cons, isum_cons, isum_cons, ih]
      ring

theorem isum_congr (keys : List SKey) (f g : SKey → Int) (h : ∀ k ∈ keys, f k = g k) :
    isum keys f = isum keys g := by
  induction keys with
  | nil => rfl
  | cons k t ih =>
      rw [isum_cons, isum_cons, h k (List.mem_cons_self _ _),
        ih fun j hj => h j (List.mem_cons_of_mem _ hj)]

/-! ### Characterizing `_build_stock_snapshot` -/

/-- The stored quantity at a stock cell, if every level is present. -/
def stockCell (s : StockMap) (i o l : String) : Option Int :=
  match aget s i with
  | none => none
  | some om =>
      match aget om o with
      | none => none
      | some lm => aget lm l

theorem stockGet_eq_cell (s : StockMap) (i o l : String) :
    stockGet s i o l = (stockCell s i o l).getD 0 := by
  unfold stockGet stockCell agetD
  cases h1 : aget s i with
  | none => simp [aget]
  | some om =>
      cases h2 : aget om o with
      | none => simp [h2, aget]
      | some lm => cases h3 : aget lm l <;> simp [h2, h3]

/-- Well-formedness a Python dict-of-dicts enjoys by construction: distinct
keys at every level. -/
def StockWF (s : StockMap) : Prop :=
  (s.map Prod.fst).Nodup ∧
    ∀ p ∈ s, (p.2.map Prod.fst).Nodup ∧ ∀ q ∈ p.2, (q.2.map Prod.fst).Nodup

instance (s : StockMap) : Decidable (StockWF s) := by
  unfold StockWF
  infer_instance

theorem aget_eq_none {κ α : Type} [DecidableEq κ] (m : List (κ × α)) (k : κ)
    (h : k ∉ m.map Prod.fst) : aget m k = none := by
  induction m with
  | nil => rfl
  | cons p t ih =>
      obtain ⟨k₀, v₀⟩ := p
      simp only [List.map_cons, List.mem_cons] at h
      push_neg at h
      rw [aget, if_neg fun he => h.1 he.symm]
      exact ih h.2

theorem keys_nodup_cons {κ α : Type} (p : κ × α) (t : List (κ × α))
    (h : ((p :: t).map Prod.fst).Nodup) :
    p.1 ∉ t.map Prod.fst ∧ (t.map Prod.fst).Nodup := by
  rw [List.map_cons] at h
  exact List.nodup_cons.mp h

theorem aget_locFold (d : Doc) (it op : String) (lm : LocMap)
    (acc : List (SKey × SnapInfo)) (hnd : (lm.map Prod.fst).Nodup) (c i o l : String) :
    aget (lm.foldl (fun a r => aset a (snapCategory d it, it, op, r.1) (snapVal d it r.2))
        acc) (c, i, o, l) =
      if c = snapCategory d it ∧ i = it ∧ o = op then
        match aget lm l with
        | some q => some (snapVal d it q)
        | none => aget acc (c, i, o, l)
      else aget acc (c, i, o, l) := by
  induction lm generalizing acc with
  | nil =>
      by_cases hc : c = snapCategory d it ∧ i = it ∧ o = op <;> simp [hc, aget]
  | cons r t ih =>
      obtain ⟨l₀, q₀⟩ := r
      rw [List.foldl_cons, ih _ (keys_nodup_cons _ _ hnd).2]
      by_cases hc : c = snapCategory d it ∧ i = it ∧ o = op
      · rw [if_pos hc, if_pos hc]
        by_cases hl : l = l₀
        · subst hl
          have htl : aget t l = none := aget_eq_none t l (keys_nodup_cons _ _ hnd).1
          simp only [htl]
          have hk : ((c, i, o, l) : SKey) = (snapCategory d it, it, op, l) := by
            obtain ⟨h1, h2, h3⟩ := hc
            rw [h1, h2, h3]
          rw [show aget ((l, q₀) :: t) l = some q₀ from by rw [aget, if_pos rfl]]
          rw [hk, aget_aset_self]
        · have hkne : ((c, i, o, l) : SKey) ≠ (snapCategory d it, it, op, l₀) := by
            intro he
            injection he with e1 e2
            injection e2 with e2 e3
            injection e3 with e3 e4
            exact hl e4
          rw [show aget ((l₀, q₀) :: t) l = aget t l from by
            rw [aget, if_neg fun he => hl he.symm]]
          cases htl : aget t l with
          | none => simp only [htl, aget_aset_ne _ _ _ _ hkne]
          | some q => simp only [htl]
      · rw [if_neg hc, if_neg hc]
        have hkne : ((c, i, o, l) : SKey) ≠ (snapCategory d it, it, op, l₀) := by
          intro he
          injection he with e1 e2
          injection e2 with e2 e3
          injection e3 with e3 e4
          exact hc ⟨e1, e2, e3⟩
        rw [aget_aset_ne _ _ _ _ hkne]

theorem aget_optFold (d : Doc) (it : String) (om : OptMap)
    (acc : List (SKey × SnapInfo)) (hnd : (om.map Prod.fst).Nodup)
    (hlm : ∀ q ∈ om, (q.2.map Prod.fst).Nodup) (c i o l : String) :
    aget (om.foldl
        (fun a q =>
          q.2.foldl (fun a2 r => aset a2 (snapCategory d it, it, q.1, r.1) (snapVal d it r.2))
            a)
        acc) (c, i, o, l) =
      if c = snapCategory d it ∧ i = it then
        match (match aget om o with | some lm => aget lm l | none => none) with
        | some q => some (snapVal d it q)
        | none => aget acc (c, i, o, l)
      else aget acc (c, i, o, l) := by
  induction om generalizing acc with
  | nil =>
      by_cases hc : c = snapCategory d it ∧ i = it <;> simp [hc, aget]
  | cons p t ih =>
      obtain ⟨o₀, lm₀⟩ := p
      rw [List.foldl_cons,
        ih _ (keys_nodup_cons _ _ hnd).2 fun q hq => hlm q (List.mem_cons_of_mem _ hq)]
      have hloc := aget_locFold d it o₀ lm₀ acc (hlm (o₀, lm₀) (List.mem_cons_self _ _)) c i o l
      by_cases hc : c = snapCategory d it ∧ i = it
      · rw [if_pos hc, if_pos hc]
        by_cases ho : o = o₀
        · subst ho
          have hto : aget t o = none := aget_eq_none t o (keys_nodup_cons _ _ hnd).1
          simp only [hto]
          rw [show aget ((o, lm₀) :: t) o = some lm₀ from by rw [aget, if_pos rfl]]
          cases hql : aget lm₀ l with
          | none =>
              simp only [hql]
              rw [hloc, if_pos ⟨hc.1, hc.2, rfl⟩, hql]
          | some q =>
              simp only [hql]
              rw [hloc, if_pos ⟨hc.1, hc.2, rfl⟩, hql]
        · rw [show aget ((o₀, lm₀) :: t) o = aget t o from by
            rw [aget, if_neg fun he => ho he.symm]]
          cases hto : aget t o with
          | none =>
              simp only [hto]
              rw [hloc, if_neg fun hcc => ho hcc.2.2]
          | some lm =>
              cases hql : aget lm l with
              | none =>
                  simp only [hto, hql]
                  rw [hloc, if_neg fun hcc => ho hcc.2.2]
              | some q => simp only [hto, hql]
      · rw [if_neg hc, if_neg hc, hloc, if_neg fun hcc => hc ⟨hcc.1, hcc.2.1⟩]

theorem aget_buildStockSnapshot (d : Doc) (hwf : StockWF d.stock) (c i o l : String) :
    aget (buildStockSnapshot d) (c, i, o, l) =
      if c = snapCategory d i then (stockCell d.stock i o l).map (snapVal d i) else none := by
  unfold buildStockSnapshot stockCell
  have main : ∀ (s : StockMap) (acc : List (SKey × SnapInfo)),
      (s.map Prod.fst).Nodup →
      (∀ p ∈ s, (p.2.map Prod.fst).Nodup ∧ ∀ q ∈ p.2, (q.2.map Prod.fst).Nodup) →
      aget (s.foldl
          (fun acc p =>
            p.2.foldl
              (fun acc q =>
                q.2.foldl
                  (fun acc r =>
                    aset acc (snapCategory d p.1, p.1, q.1, r.1) (snapVal d p.1 r.2))
                  acc)
              acc)
          acc) (c, i, o, l) =
        if c = snapCategory d i then
          match (match aget s i with
            | some om => match aget om o with
              | some lm => aget lm l
              | none => none
            | none => none) with
          | some q => some (snapVal d i q)
          | none => aget acc (c, i, o, l)
        else aget acc (c, i, o, l) := by
    intro s
    induction s with
    | nil =>
        intro acc hnd hsub
        by_cases hc : c = snapCategory d i <;> simp [hc, aget]
    | cons p t ih =>
        intro acc hnd hsub
        obtain ⟨i₀, om₀⟩ := p
        rw [List.foldl_cons,
          ih _ (keys_nodup_cons _ _ hnd).2 fun q hq => hsub q (List.mem_cons_of_mem _ hq)]
        have hopt := aget_optFold d i₀ om₀ acc
          (hsub (i₀, om₀) (List.mem_cons_self _ _)).1
          (hsub (i₀, om₀) (List.mem_cons_self _ _)).2 c i o l
        by_cases hi : i = i₀
        · subst hi
          have hti : aget t i = none := aget_eq_none t i (keys_nodup_cons _ _ hnd).1
          simp only [hti]
          rw [show aget ((i, om₀) :: t) i = some om₀ from by rw [aget, if_pos rfl]]
          by_cases hc : c = snapCategory d i
          · rw [if_pos hc, if_pos hc, hopt, if_pos ⟨hc, rfl⟩]
          · rw [if_neg hc, if_neg hc, hopt, if_neg fun hcc => hc hcc.1]
        · rw [show aget ((i₀, om₀) :: t) i = aget t i from by
            rw [aget, if_neg fun he => hi he.symm]]
          have hacc : aget (om₀.foldl
              (fun a q =>
                q.2.foldl
                  (fun a2 r => aset a2 (snapCategory d i₀, i₀, q.1, r.1) (snapVal d i₀ r.2))
                  a)
              acc) (c, i, o, l) = aget acc (c, i, o, l) := by
            rw [hopt, if_neg fun hcc => hi hcc.2]
          by_cases hc : c = snapCategory d i
          · rw [if_pos hc, if_pos hc]
            cases hti : aget t i with
            | none => simp only [hti]; rw [hacc]
            | some om =>
                cases hoo : aget om o with
                | none => simp only [hti, hoo]; rw [hacc]
                | some lm =>
                    cases hll : aget lm l with
                    | none => simp only [hti, hoo, hll]; rw [hacc]
                    | some q => simp only [hti, hoo, hll]
          · rw [if_neg hc, if_neg hc, hacc]
  rw [main d.stock [] hwf.1 hwf.2]
  by_cases hc : c = snapCategory d i
  · rw [if_pos hc, if_pos hc]
    cases h1 : aget d.stock i with
    | none => simp only [h1]; rfl
    | some om =>
        cases h2 : aget om o with
        | none => simp only [h1, h2]; rfl
        | some lm =>
            cases h3 : aget lm l with
            | none => simp only [h1, h2, h3]; rfl
            | some q => simp only [h1, h2, h3]; rfl
  · rw [if_neg hc, if_neg hc]; rfl

/-- An external-side document that knows a stock cell but no artist. -/
def gOnlyDoc : Doc := { emptyDoc with stock := [("X", [("", [("Seoul", 5)])])] }

/-- C3 counterexample: the local and external quantities differ at the key
(0 vs 5), yet the pull records no transaction — with no artist on either
side the loop evaluates `determine_artist(self.data, item)`, a call to a
three-parameter function with two arguments, and the `TypeError` aborts the
sync before anything is recorded. -/
theorem syncPull_counterexample :
    (agetD (buildStockSnapshot emptyDoc) ("album", "X", "", "Seoul") snapDefault).qty = 0 ∧
      (agetD (buildStockSnapshot gOnlyDoc) ("album", "X", "", "Seoul") snapDefault).qty = 5 ∧
      syncPull emptyDoc gOnlyDoc "2024-03-02T10:00:00" "2024-03" "2024-03-02" "2024"
          "actor" =
        .error (.missingArtist ("album", "X", "", "Seoul"), emptyDoc) := by
  decide

/-- Witness for the amended C8: the early-return branch on a stockless
document, and the history defaulting on a well-formed run. -/
theorem ensureNewSchemaRaw_defaults_witness :
    ensureNewSchemaRaw [("history", RVal.arr [RVal.obj []])] =
        .ok (aset [("history", RVal.arr [RVal.obj []])] "stock" (.obj [])) ∧
      (∃ es2, aget rawHistDocUp "history" = some (.arr es2) ∧
        es2.length = [RVal.obj [("type", RVal.str "in")]].length ∧
        ∀ j (hj : j < [RVal.obj [("type", RVal.str "in")]].length) (hj2 : j < es2.length),
          ∃ fs fs2,
            [RVal.obj [("type", RVal.str "in")]].get ⟨j, hj⟩ = .obj fs ∧
            es2.get ⟨j, hj2⟩ = .obj fs2 ∧
            aget fs2 "event" = some (agetD fs "event" (.bool false)) ∧
            aget fs2 "event_id" = some (agetD fs "event_id" (.str "")) ∧
            aget fs2 "event_open" = some (agetD fs "event_open" (.bool false)) ∧
            aget fs2 "category" = some (agetD fs "category" (.str "album"))) :=
  ⟨(ensureNewSchemaRaw_defaults [("history", RVal.arr [RVal.obj []])]).1
      (fun _ h => Option.noConfusion h),
    (ensureNewSchemaRaw_defaults rawHistDoc).2 [] rawHistDocUp
      [RVal.obj [("type", RVal.str "in")]] rfl rfl rfl⟩

/-! ### Further `record_transaction` helpers for the pull proof -/

theorem prepDoc_artist_get (d0 : Doc) (tx : Tx) (now : String) (i : String) :
    (agetD (prepDoc d0 tx now).item_metadata i {}).artist =
      (agetD d0.item_metadata i {}).artist := by
  unfold prepDoc
  rw [ensureNewSchemaS_agetD_artist]
  rw [show agetD (ensurePeriod d0 tx.period now).item_metadata i {} =
        agetD (ensureNewSchemaS d0).item_metadata i {} by
      rw [agetD, agetD, ensurePeriod_metadata]]
  rw [ensureNewSchemaS_agetD_artist]

theorem bindDoc_artist_other (d0 : Doc) (tx : Tx) (now : String) (i : String)
    (hi : i ≠ tx.item) :
    (agetD (bindDoc d0 tx now).item_metadata i {}).artist =
      (agetD d0.item_metadata i {}).artist := by
  show (agetD (asetd (prepDoc d0 tx now).item_metadata tx.item {}) i {}).artist = _
  rw [agetD, aget_asetd_ne _ _ _ _ hi]
  exact prepDoc_artist_get d0 tx now i

theorem applyDoc_artist_other (d0 : Doc) (tx : Tx) (now : String) (i : String)
    (hi : i ≠ tx.item) :
    (agetD (applyDoc d0 tx now).item_metadata i {}).artist =
      (agetD d0.item_metadata i {}).artist := by
  show (agetD (aset (bindDoc d0 tx now).item_metadata tx.item
      (updatedInfo (prepInfo d0 tx now) tx)) i {}).artist = _
  rw [agetD, aget_aset_ne _ _ _ _ hi]
  exact bindDoc_artist_other d0 tx now i hi

/-- `record_transaction` never touches the artist of a different item,
whatever its outcome. -/
theorem recordTransaction_artist_other (d : Doc) (tx : Tx) (ng : Bool) (now : String)
    (i : String) (hi : i ≠ tx.item) :
    (agetD (recordTransaction d tx ng now).2.item_metadata i {}).artist =
      (agetD d.item_metadata i {}).artist := by
  unfold recordTransaction
  by_cases hc : (prepInfo d tx now).artist ≠ "" ∧ (prepInfo d tx now).artist ≠ tx.artist
  · rw [if_pos hc]
    exact bindDoc_artist_other d tx now i hi
  · rw [if_neg hc, recordApplyCore_metadata_artist]
    exact applyDoc_artist_other d tx now i hi

/-- A non-raising `record_transaction` leaves the transaction's artist bound
to the item. -/
theorem recordTransaction_artist_self_success (d : Doc) (tx : Tx) (ng : Bool) (now : String)
    (h : (recordTransaction d tx ng now).1 = none) :
    (agetD (recordTransaction d tx ng now).2.item_metadata tx.item {}).artist = tx.artist := by
  have hnc : ¬ ArtistConflict d tx := by
    intro hc
    rw [recordTransaction_mismatch d tx ng now hc] at h
    exact Option.some_ne_none _ h
  rw [recordTransaction_no_mismatch d tx ng now hnc, recordApplyCore_metadata_artist,
    applyDoc_artist_self]

/-- With `allow_negative` the stock check is skipped, so steps 4–6 cannot
raise. -/
theorem recordApplyCore_negative_ok (d : Doc) (tx : Tx) :
    (recordApplyCore d tx true).1 = none := by
  unfold recordApplyCore
  by_cases ht : tx.type = "out"
  · rw [if_pos ht, if_neg fun h => Bool.noConfusion h.2]
    rfl
  · rw [if_neg ht]
    rfl

/-- `record_transaction(..., allow_negative=True)` succeeds whenever the
artist check passes. -/
theorem recordTransaction_negative_ok (d : Doc) (tx : Tx) (now : String)
    (h : ¬ ArtistConflict d tx) :
    (recordTransaction d tx true now).1 = none := by
  rw [recordTransaction_no_mismatch d tx true now h]
  exact recordApplyCore_negative_ok _ _

/-- The signed stock delta of a synthesized correction is exactly the raw
difference: `in |diff|` when positive, `out |diff|` when not. -/
theorem signed_delta (z : Int) :
    (if (if z > 0 then "in" else "out") = "out" then -|z| else |z|) = z := by
  by_cases h : z > 0
  · rw [if_pos h, if_neg (by decide : ¬("in" = "out")), abs_of_pos h]
  · rw [if_neg h, if_pos rfl, abs_of_nonpos (le_of_not_lt h)]
    ring

/-! ### Characterizing the artist merge -/

theorem mergeFold_artist (gl : List (String × MetaInfo)) (md : List (String × MetaInfo))
    (hnd : (gl.map Prod.fst).Nodup) (i : String) :
    (agetD (gl.foldl mergeStep md) i {}).artist =
      if (agetD gl i {}).artist ≠ "" then (agetD gl i {}).artist
      else (agetD md i {}).artist := by
  induction gl generalizing md with
  | nil => simp [agetD, aget]
  | cons p t ih =>
      obtain ⟨i₀, m₀⟩ := p
      rw [List.foldl_cons, ih _ (keys_nodup_cons _ _ hnd).2]
      by_cases hi : i₀ = i
      · subst hi
        have hti : (agetD t i₀ ({} : MetaInfo)).artist = "" := by
          rw [agetD, aget_eq_none t i₀ (keys_nodup_cons _ _ hnd).1]
          rfl
        have hhd : agetD ((i₀, m₀) :: t) i₀ ({} : MetaInfo) = m₀ := by
          simp [agetD, aget]
        rw [hti, if_neg fun h => h rfl, hhd]
        show (agetD (mergeStep md (i₀, m₀)) i₀ {}).artist = _
        rw [mergeStep]
        by_cases hm : m₀.artist ≠ ""
        · rw [if_pos hm, if_pos hm, agetD, aget_aset_self]
          rfl
        · rw [if_neg hm, if_neg hm]
      · have hcons : agetD ((i₀, m₀) :: t) i ({} : MetaInfo) = agetD t i {} := by
          simp [agetD, aget, hi]
        rw [hcons]
        have hstep : (agetD (mergeStep md (i₀, m₀)) i ({} : MetaInfo)).artist =
            (agetD md i {}).artist := by
          rw [mergeStep]
          by_cases hm : m₀.artist ≠ ""
          · rw [if_pos hm, agetD, aget_aset_ne _ _ _ _ fun he => hi he.symm,
              aget_asetd_ne _ _ _ _ fun he => hi he.symm]
            rfl
          · rw [if_neg hm]
        rw [hstep]

theorem mergeArtists_artist (dLoc g : Doc)
    (hnd : (g.item_metadata.map Prod.fst).Nodup) (i : String) :
    snapArtist (mergeArtists dLoc g) i =
      if snapArtist g i ≠ "" then snapArtist g i else snapArtist dLoc i :=
  mergeFold_artist g.item_metadata dLoc.item_metadata hnd i

/-! ### Snapshot cell values -/

/-- The quantity a snapshot reports at a key (keys off the item's stored
category, or absent cells, report the default 0). -/
theorem snapQty_build (d : Doc) (hwf : StockWF d.stock) (c i o l : String) :
    (agetD (buildStockSnapshot d) (c, i, o, l) snapDefault).qty =
      if c = snapCategory d i then stockGet d.stock i o l else 0 := by
  unfold agetD
  rw [aget_buildStockSnapshot d hwf, stockGet_eq_cell]
  by_cases hc : c = snapCategory d i
  · rw [if_pos hc, if_pos hc]
    cases hq : stockCell d.stock i o l with
    | none => rfl
    | some q => rfl
  · rw [if_neg hc, if_neg hc]
    rfl

/-- The artist a snapshot reports at a key is the item's stored artist or
the default empty string. -/
theorem snapArt_build (d : Doc) (hwf : StockWF d.stock) (c i o l : String) :
    (agetD (buildStockSnapshot d) (c, i, o, l) snapDefault).artist = "" ∨
      (agetD (buildStockSnapshot d) (c, i, o, l) snapDefault).artist = snapArtist d i := by
  unfold agetD
  rw [aget_buildStockSnapshot d hwf]
  by_cases hc : c = snapCategory d i
  · rw [if_pos hc]
    cases hq : stockCell d.stock i o l with
    | none => left; rfl
    | some q => right; rfl
  · rw [if_neg hc]
    left
    rfl

/-! ### The union key list -/

theorem mem_unionKeys_iff (l g : List (SKey × SnapInfo)) (k : SKey) :
    k ∈ unionKeys l g ↔ k ∈ l.map Prod.fst ∨ k ∈ g.map Prod.fst := by
  unfold unionKeys
  rw [(insSort_perm skeyLe _).mem_iff, List.mem_dedup, List.mem_append]

theorem unionKeys_nodup (l g : List (SKey × SnapInfo)) : (unionKeys l g).Nodup :=
  ((insSort_perm skeyLe _).nodup_iff).mpr (List.nodup_dedup _)

theorem filterMap_eq_nil_of_none {α β : Type} (f : α → Option β) (l : List α)
    (h : ∀ a ∈ l, f a = none) : l.filterMap f = [] := by
  induction l with
  | nil => rfl
  | cons a t ih =>
      rw [List.filterMap_cons, h a (List.mem_cons_self _ _)]
      exact ih fun b hb => h b (List.mem_cons_of_mem _ hb)

/-! ### The synthesized transaction, field by field -/

theorem mkSyncTx_item (li gi : SnapInfo) (k : SKey)
    (now nowPeriod nowDay nowYear actor : String) :
    (mkSyncTx li gi k now nowPeriod nowDay nowYear actor).item = k.2.1 := rfl

theorem mkSyncTx_option (li gi : SnapInfo) (k : SKey)
    (now nowPeriod nowDay nowYear actor : String) :
    (mkSyncTx li gi k now nowPeriod nowDay nowYear actor).option = k.2.2.1 := rfl

theorem mkSyncTx_location (li gi : SnapInfo) (k : SKey)
    (now nowPeriod nowDay nowYear actor : String) :
    (mkSyncTx li gi k now nowPeriod nowDay nowYear actor).location = k.2.2.2 := rfl

theorem mkSyncTx_type (li gi : SnapInfo) (k : SKey)
    (now nowPeriod nowDay nowYear actor : String) :
    (mkSyncTx li gi k now nowPeriod nowDay nowYear actor).type =
      if gi.qty - li.qty > 0 then "in" else "out" := rfl

theorem mkSyncTx_quantity (li gi : SnapInfo) (k : SKey)
    (now nowPeriod nowDay nowYear actor : String) :
    (mkSyncTx li gi k now nowPeriod nowDay nowYear actor).quantity = |gi.qty - li.qty| := rfl

theorem mkSyncTx_artist (li gi : SnapInfo) (k : SKey)
    (now nowPeriod nowDay nowYear actor : String) :
    (mkSyncTx li gi k now nowPeriod nowDay nowYear actor).artist =
      if gi.artist ≠ "" then gi.artist else li.artist := rfl

/-! ### The per-key loop, end to end -/

/-- The per-key loop of `sync_google_drive` runs to completion and its
effect on history and stock, provided every differing key carries an artist
on at least one side, every synthesized artist agrees with the function
`mArt`, and every artist the document already binds agrees with `mArt`. -/
theorem syncLoop_ok (lsnap gsnap : List (SKey × SnapInfo))
    (now nowPeriod nowDay nowYear actor : String) (mArt : String → String)
    (keys : List SKey) :
    ∀ (d : Doc) (changes : Nat),
      (∀ k ∈ keys, (agetD gsnap k snapDefault).qty - (agetD lsnap k snapDefault).qty ≠ 0 →
        ¬((agetD gsnap k snapDefault).artist = "" ∧ (agetD lsnap k snapDefault).artist = "")) →
      (∀ k ∈ keys, (agetD gsnap k snapDefault).qty - (agetD lsnap k snapDefault).qty ≠ 0 →
        (if (agetD gsnap k snapDefault).artist ≠ "" then (agetD gsnap k snapDefault).artist
          else (agetD lsnap k snapDefault).artist) = mArt k.2.1) →
      (∀ i, snapArtist d i = "" ∨ snapArtist d i = mArt i) →
      ∃ d2, syncLoop d lsnap gsnap keys now nowPeriod nowDay nowYear actor changes =
          .ok (d2, changes + (keys.filterMap
            (synthEntry lsnap gsnap now nowPeriod nowDay nowYear actor)).length) ∧
        d2.history = d.history ++ keys.filterMap
          (synthEntry lsnap gsnap now nowPeriod nowDay nowYear actor) ∧
        ∀ i o l, stockGet d2.stock i o l = stockGet d.stock i o l +
          isum keys (fun k => if k.2.1 = i ∧ k.2.2.1 = o ∧ k.2.2.2 = l then
            (agetD gsnap k snapDefault).qty - (agetD lsnap k snapDefault).qty else 0) := by
  induction keys with
  | nil =>
      intro d changes _ _ _
      refine ⟨d, by simp [syncLoop], by simp, ?_⟩
      intro i o l
      simp [isum]
  | cons k rest ih =>
      intro d changes hart htx hinv
      by_cases hd' : (agetD gsnap k snapDefault).qty - (agetD lsnap k snapDefault).qty = 0
      · obtain ⟨d2, hok, hhist, hstock⟩ :=
          ih d changes (fun j hj => hart j (List.mem_cons_of_mem _ hj))
            (fun j hj => htx j (List.mem_cons_of_mem _ hj)) hinv
        have hnone : synthEntry lsnap gsnap now nowPeriod nowDay nowYear actor k = none := by
          simp only [synthEntry]
          rw [if_pos hd']
        have hstep : syncLoop d lsnap gsnap (k :: rest) now nowPeriod nowDay nowYear actor
            changes =
            syncLoop d lsnap gsnap rest now nowPeriod nowDay nowYear actor changes := by
          simp only [syncLoop]
          rw [if_pos hd']
        refine ⟨d2, ?_, ?_, ?_⟩
        · rw [hstep, hok, List.filterMap_cons]
          simp only [hnone]
        · rw [hhist, List.filterMap_cons]
          simp only [hnone]
        · intro i o l
          rw [hstock i o l, isum_cons]
          have hzero : (if k.2.1 = i ∧ k.2.2.1 = o ∧ k.2.2.2 = l then
              (agetD gsnap k snapDefault).qty - (agetD lsnap k snapDefault).qty else 0) = 0 := by
            by_cases hm : k.2.1 = i ∧ k.2.2.1 = o ∧ k.2.2.2 = l
            · rw [if_pos hm]
              exact hd'
            · rw [if_neg hm]
          rw [hzero]
          ring
      · have hartk : ¬((agetD gsnap k snapDefault).artist = "" ∧
            (agetD lsnap k snapDefault).artist = "") :=
          hart k (List.mem_cons_self _ _) hd'
        have hnc : ¬ ArtistConflict d (mkSyncTx (agetD lsnap k snapDefault)
            (agetD gsnap k snapDefault) k now nowPeriod nowDay nowYear actor) := by
          intro hc
          rcases hinv k.2.1 with h0 | h0
          · exact hc.1 h0
          · exact hc.2 (h0.trans (htx k (List.mem_cons_self _ _) hd').symm)
        have hnone : (recordTransaction d (mkSyncTx (agetD lsnap k snapDefault)
            (agetD gsnap k snapDefault) k now nowPeriod nowDay nowYear actor) true now).1 =
            none := recordTransaction_negative_ok d _ now hnc
        obtain ⟨hh, hs⟩ := recordTransaction_success_effect d _ true now hnone
        have hinv' : ∀ i,
            snapArtist (recordTransaction d (mkSyncTx (agetD lsnap k snapDefault)
              (agetD gsnap k snapDefault) k now nowPeriod nowDay nowYear actor) true now).2 i =
              "" ∨
            snapArtist (recordTransaction d (mkSyncTx (agetD lsnap k snapDefault)
              (agetD gsnap k snapDefault) k now nowPeriod nowDay nowYear actor) true now).2 i =
              mArt i := by
          intro i
          by_cases hik : i = k.2.1
          · right
            subst hik
            exact (recordTransaction_artist_self_success d _ true now hnone).trans
              (htx k (List.mem_cons_self _ _) hd')
          · have h3 := recordTransaction_artist_other d (mkSyncTx (agetD lsnap k snapDefault)
              (agetD gsnap k snapDefault) k now nowPeriod nowDay nowYear actor) true now i hik
            rcases hinv i with h0 | h0
            · exact Or.inl (h3.trans h0)
            · exact Or.inr (h3.trans h0)
        obtain ⟨d2, hok, hhist, hstock⟩ :=
          ih (recordTransaction d (mkSyncTx (agetD lsnap k snapDefault)
              (agetD gsnap k snapDefault) k now nowPeriod nowDay nowYear actor) true now).2
            (changes + 1)
            (fun j hj => hart j (List.mem_cons_of_mem _ hj))
            (fun j hj => htx j (List.mem_cons_of_mem _ hj))
            hinv'
        have hsome : synthEntry lsnap gsnap now nowPeriod nowDay nowYear actor k =
            some (txToDict (mkSyncTx (agetD lsnap k snapDefault)
              (agetD gsnap k snapDefault) k now nowPeriod nowDay nowYear actor)) := by
          simp only [synthEntry]
          rw [if_neg hd']
        have hstep : syncLoop d lsnap gsnap (k :: rest) now nowPeriod nowDay nowYear actor
            changes =
            syncLoop (recordTransaction d (mkSyncTx (agetD lsnap k snapDefault)
                (agetD gsnap k snapDefault) k now nowPeriod nowDay nowYear actor) true now).2
              lsnap gsnap rest now nowPeriod nowDay nowYear actor (changes + 1) := by
          simp only [syncLoop]
          rw [if_neg hd', if_neg hartk]
          rw [show recordTransaction d (mkSyncTx (agetD lsnap k snapDefault)
              (agetD gsnap k snapDefault) k now nowPeriod nowDay nowYear actor) true now =
              (none, (recordTransaction d (mkSyncTx (agetD lsnap k snapDefault)
                (agetD gsnap k snapDefault) k now nowPeriod nowDay nowYear actor) true
                  now).2) from by rw [← hnone]]
        refine ⟨d2, ?_, ?_, ?_⟩
        · rw [hstep, hok, List.filterMap_cons]
          simp only [hsome, List.length_cons]
          rw [show changes + 1 + (List.filterMap (synthEntry lsnap gsnap now nowPeriod nowDay
              nowYear actor) rest).length = changes + ((List.filterMap (synthEntry lsnap
              gsnap now nowPeriod nowDay nowYear actor) rest).length + 1) from by omega]
        · rw [hhist, hh, List.filterMap_cons]
          simp only [hsome]
          rw [List.append_assoc, List.singleton_append]
        · intro i o l
          rw [hstock i o l, hs i o l, isum_cons]
          rw [mkSyncTx_item, mkSyncTx_option, mkSyncTx_location, mkSyncTx_type,
            mkSyncTx_quantity, optionKey_eq, signed_delta]
          by_cases hm : k.2.1 = i ∧ k.2.2.1 = o ∧ k.2.2.2 = l
          · rw [if_pos ⟨hm.1.symm, hm.2.1.symm, hm.2.2.symm⟩, if_pos hm]
            ring
          · rw [if_neg fun h => hm ⟨h.1.symm, h.2.1.symm, h.2.2.symm⟩, if_neg hm]
            ring

/-! ### Summing snapshot quantities over the union keys, cell by cell -/

/-- Over any duplicate-free key list covering the snapshot's keys, the
snapshot quantities attributed to one stock cell sum to exactly the stored
quantity of that cell: only the key carrying the item's category can be
non-zero, and it holds the cell's value. -/
theorem isum_cell (d : Doc) (hwf : StockWF d.stock) (U : List SKey) (hnd : U.Nodup)
    (hsub : ∀ k, k ∈ (buildStockSnapshot d).map Prod.fst → k ∈ U) (i o l : String) :
    isum U (fun k => if k.2.1 = i ∧ k.2.2.1 = o ∧ k.2.2.2 = l then
        (agetD (buildStockSnapshot d) k snapDefault).qty else 0) =
      stockGet d.stock i o l := by
  by_cases hk0 : (snapCategory d i, i, o, l) ∈ U
  · have hz : ∀ k ∈ U, k ≠ (snapCategory d i, i, o, l) →
        (if k.2.1 = i ∧ k.2.2.1 = o ∧ k.2.2.2 = l then
          (agetD (buildStockSnapshot d) k snapDefault).qty else 0) = 0 := by
      intro k hk hne
      obtain ⟨c, i', o', l'⟩ := k
      show (if i' = i ∧ o' = o ∧ l' = l then
          (agetD (buildStockSnapshot d) (c, i', o', l') snapDefault).qty else 0) = 0
      by_cases hm : i' = i ∧ o' = o ∧ l' = l
      · rw [if_pos hm]
        obtain ⟨h1, h2, h3⟩ := hm
        subst h1
        subst h2
        subst h3
        have hc : c ≠ snapCategory d i' := fun he => hne (by rw [he])
        rw [snapQty_build d hwf, if_neg hc]
      · rw [if_neg hm]
    rw [isum_single U _ (snapCategory d i, i, o, l) hnd hk0 hz]
    show (if i = i ∧ o = o ∧ l = l then
        (agetD (buildStockSnapshot d) (snapCategory d i, i, o, l) snapDefault).qty else 0) =
      stockGet d.stock i o l
    rw [if_pos ⟨rfl, rfl, rfl⟩, snapQty_build d hwf, if_pos rfl]
  · have hz : ∀ k ∈ U,
        (if k.2.1 = i ∧ k.2.2.1 = o ∧ k.2.2.2 = l then
          (agetD (buildStockSnapshot d) k snapDefault).qty else 0) = 0 := by
      intro k hk
      obtain ⟨c, i', o', l'⟩ := k
      show (if i' = i ∧ o' = o ∧ l' = l then
          (agetD (buildStockSnapshot d) (c, i', o', l') snapDefault).qty else 0) = 0
      by_cases hm : i' = i ∧ o' = o ∧ l' = l
      · rw [if_pos hm]
        obtain ⟨h1, h2, h3⟩ := hm
        subst h1
        subst h2
        subst h3
        have hc : c ≠ snapCategory d i' := fun he => hk0 (he ▸ hk)
        rw [snapQty_build d hwf, if_neg hc]
      · rw [if_neg hm]
    rw [isum_zero U _ hz]
    have hnone : aget (buildStockSnapshot d) (snapCategory d i, i, o, l) = none :=
      aget_eq_none _ _ fun hmem => hk0 (hsub _ hmem)
    rw [aget_buildStockSnapshot d hwf, if_pos rfl] at hnone
    rw [stockGet_eq_cell]
    cases hsc : stockCell d.stock i o l with
    | none => rfl
    | some q =>
        rw [hsc] at hnone
        exact absurd hnone (by simp)

/-- C3 (amended): on well-formed stocks, when the remote metadata keys are
duplicate-free, every union key whose quantities differ carries an artist on
at least one side (otherwise the loop crashes calling `determine_artist`
with a missing argument), and the two sides never bind conflicting
non-empty artists, the pull succeeds; per key it synthesizes no transaction
when the two quantities are equal (in particular diffing a snapshot against
itself synthesizes nothing), and exactly one transaction of type `in` if
external minus local is positive else `out` with quantity `|external -
local|` otherwise, each fed through `record_transaction` with
`allow_negative=True`; it appends exactly those entries to the history and
leaves every local stock cell equal to the external one. -/
theorem syncPull_spec (dLoc g : Doc) (now nowPeriod nowDay nowYear actor : String)
    (hwl : StockWF dLoc.stock) (hwg : StockWF g.stock)
    (hgnd : (g.item_metadata.map Prod.fst).Nodup)
    (hart : ∀ k ∈ unionKeys (buildStockSnapshot dLoc) (buildStockSnapshot g),
      (agetD (buildStockSnapshot g) k snapDefault).qty -
          (agetD (buildStockSnapshot dLoc) k snapDefault).qty ≠ 0 →
      ¬((agetD (buildStockSnapshot g) k snapDefault).artist = "" ∧
        (agetD (buildStockSnapshot dLoc) k snapDefault).artist = ""))
    (hagree : ∀ i ∈ g.item_metadata.map Prod.fst,
      snapArtist g i = "" ∨ snapArtist dLoc i = "" ∨ snapArtist g i = snapArtist dLoc i) :
    (∀ k, synthEntry (buildStockSnapshot dLoc) (buildStockSnapshot g)
        now nowPeriod nowDay nowYear actor k = none ↔
      (agetD (buildStockSnapshot g) k snapDefault).qty =
        (agetD (buildStockSnapshot dLoc) k snapDefault).qty) ∧
    (∀ k, (agetD (buildStockSnapshot g) k snapDefault).qty -
        (agetD (buildStockSnapshot dLoc) k snapDefault).qty ≠ 0 →
      ∃ e, synthEntry (buildStockSnapshot dLoc) (buildStockSnapshot g)
          now nowPeriod nowDay nowYear actor k = some e ∧
        e.type = (if (agetD (buildStockSnapshot g) k snapDefault).qty -
            (agetD (buildStockSnapshot dLoc) k snapDefault).qty > 0 then "in" else "out") ∧
        e.quantity = |(agetD (buildStockSnapshot g) k snapDefault).qty -
            (agetD (buildStockSnapshot dLoc) k snapDefault).qty|) ∧
    (unionKeys (buildStockSnapshot dLoc) (buildStockSnapshot dLoc)).filterMap
      (synthEntry (buildStockSnapshot dLoc) (buildStockSnapshot dLoc)
        now nowPeriod nowDay nowYear actor) = [] ∧
    ∃ d2, syncPull dLoc g now nowPeriod nowDay nowYear actor =
        .ok (d2, ((unionKeys (buildStockSnapshot dLoc) (buildStockSnapshot g)).filterMap
          (synthEntry (buildStockSnapshot dLoc) (buildStockSnapshot g)
            now nowPeriod nowDay nowYear actor)).length) ∧
      d2.history = dLoc.history ++
        (unionKeys (buildStockSnapshot dLoc) (buildStockSnapshot g)).filterMap
          (synthEntry (buildStockSnapshot dLoc) (buildStockSnapshot g)
            now nowPeriod nowDay nowYear actor) ∧
      ∀ i o l, stockGet d2.stock i o l = stockGet g.stock i o l := by
  refine ⟨?_, ?_, ?_, ?_⟩
  · intro k
    simp only [synthEntry]
    by_cases h : (agetD (buildStockSnapshot g) k snapDefault).qty -
        (agetD (buildStockSnapshot dLoc) k snapDefault).qty = 0
    · rw [if_pos h]
      exact iff_of_true rfl (sub_eq_zero.mp h)
    · rw [if_neg h]
      exact iff_of_false (fun hc => Option.noConfusion hc)
        (fun he => h (by rw [he, sub_self]))
  · intro k hdk
    refine ⟨txToDict (mkSyncTx (agetD (buildStockSnapshot dLoc) k snapDefault)
      (agetD (buildStockSnapshot g) k snapDefault) k now nowPeriod nowDay nowYear actor),
      ?_, rfl, rfl⟩
    simp only [synthEntry]
    rw [if_neg hdk]
  · exact filterMap_eq_nil_of_none _ _ fun k _ => by
      simp only [synthEntry]
      rw [if_pos (sub_self _)]
  · have hagree' : ∀ i, snapArtist g i = "" ∨ snapArtist dLoc i = "" ∨
        snapArtist g i = snapArtist dLoc i := by
      intro i
      by_cases hm : i ∈ g.item_metadata.map Prod.fst
      · exact hagree i hm
      · left
        show (agetD g.item_metadata i {}).artist = ""
        rw [agetD, aget_eq_none _ _ hm]
        rfl
    have htxU : ∀ k ∈ unionKeys (buildStockSnapshot dLoc) (buildStockSnapshot g),
        (agetD (buildStockSnapshot g) k snapDefault).qty -
            (agetD (buildStockSnapshot dLoc) k snapDefault).qty ≠ 0 →
        (if (agetD (buildStockSnapshot g) k snapDefault).artist ≠ "" then
            (agetD (buildStockSnapshot g) k snapDefault).artist
          else (agetD (buildStockSnapshot dLoc) k snapDefault).artist) =
          (fun j => if snapArtist g j ≠ "" then snapArtist g j else snapArtist dLoc j)
            k.2.1 := by
      intro k hk hdk
      obtain ⟨c, i, o, l⟩ := k
      show (if (agetD (buildStockSnapshot g) (c, i, o, l) snapDefault).artist ≠ "" then
          (agetD (buildStockSnapshot g) (c, i, o, l) snapDefault).artist
        else (agetD (buildStockSnapshot dLoc) (c, i, o, l) snapDefault).artist) =
        if snapArtist g i ≠ "" then snapArtist g i else snapArtist dLoc i
      rcases snapArt_build g hwg c i o l with hga | hga
      · rw [if_neg fun h => h hga]
        have hla' : (agetD (buildStockSnapshot dLoc) (c, i, o, l) snapDefault).artist ≠ "" :=
          fun h => hart _ hk hdk ⟨hga, h⟩
        rcases snapArt_build dLoc hwl c i o l with hla | hla
        · exact absurd hla hla'
        · rw [hla]
          by_cases hgg : snapArtist g i ≠ ""
          · rw [if_pos hgg]
            rcases hagree' i with h3 | h3 | h3
            · exact absurd h3 hgg
            · exact absurd (hla.trans h3) hla'
            · exact h3.symm
          · rw [if_neg hgg]
      · by_cases hgg : (agetD (buildStockSnapshot g) (c, i, o, l) snapDefault).artist ≠ ""
        · rw [if_pos hgg, hga, if_pos (hga ▸ hgg)]
        · have hga0 : (agetD (buildStockSnapshot g) (c, i, o, l) snapDefault).artist = "" :=
            not_ne_iff.mp hgg
          have hgi0 : snapArtist g i = "" := hga ▸ hga0
          rw [if_neg hgg, if_neg fun h => h hgi0]
          have hla' : (agetD (buildStockSnapshot dLoc) (c, i, o, l) snapDefault).artist ≠ "" :=
            fun h => hart _ hk hdk ⟨hga0, h⟩
          rcases snapArt_build dLoc hwl c i o l with hla | hla
          · exact absurd hla hla'
          · exact hla
    have hinv0 : ∀ i, snapArtist (mergeArtists dLoc g) i = "" ∨
        snapArtist (mergeArtists dLoc g) i =
          (fun j => if snapArtist g j ≠ "" then snapArtist g j else snapArtist dLoc j) i :=
      fun i => Or.inr (mergeArtists_artist dLoc g hgnd i)
    obtain ⟨d2, hok, hhist, hstock⟩ :=
      syncLoop_ok (buildStockSnapshot dLoc) (buildStockSnapshot g) now nowPeriod nowDay
        nowYear actor
        (fun j => if snapArtist g j ≠ "" then snapArtist g j else snapArtist dLoc j)
        (unionKeys (buildStockSnapshot dLoc) (buildStockSnapshot g))
        (mergeArtists dLoc g) 0 hart htxU hinv0
    rw [Nat.zero_add] at hok
    refine ⟨d2, hok, hhist, ?_⟩
    intro i o l
    have hsplit : isum (unionKeys (buildStockSnapshot dLoc) (buildStockSnapshot g))
        (fun k => if k.2.1 = i ∧ k.2.2.1 = o ∧ k.2.2.2 = l then
          (agetD (buildStockSnapshot g) k snapDefault).qty -
            (agetD (buildStockSnapshot dLoc) k snapDefault).qty else 0) =
        isum (unionKeys (buildStockSnapshot dLoc) (buildStockSnapshot g))
          (fun k => if k.2.1 = i ∧ k.2.2.1 = o ∧ k.2.2.2 = l then
            (agetD (buildStockSnapshot g) k snapDefault).qty else 0) -
        isum (unionKeys (buildStockSnapshot dLoc) (buildStockSnapshot g))
          (fun k => if k.2.1 = i ∧ k.2.2.1 = o ∧ k.2.2.2 = l then
            (agetD (buildStockSnapshot dLoc) k snapDefault).qty else 0) := by
      rw [← isum_sub]
      apply isum_congr
      intro k hk
      show (if k.2.1 = i ∧ k.2.2.1 = o ∧ k.2.2.2 = l then
          (agetD (buildStockSnapshot g) k snapDefault).qty -
            (agetD (buildStockSnapshot dLoc) k snapDefault).qty else 0) =
        (if k.2.1 = i ∧ k.2.2.1 = o ∧ k.2.2.2 = l then
          (agetD (buildStockSnapshot g) k snapDefault).qty else 0) -
        (if k.2.1 = i ∧ k.2.2.1 = o ∧ k.2.2.2 = l then
          (agetD (buildStockSnapshot dLoc) k snapDefault).qty else 0)
      by_cases hm : k.2.1 = i ∧ k.2.2.1 = o ∧ k.2.2.2 = l
      · rw [if_pos hm, if_pos hm, if_pos hm]
      · rw [if_neg hm, if_neg hm, if_neg hm]
        ring
    rw [hstock i o l, hsplit,
      isum_cell g hwg (unionKeys (buildStockSnapshot dLoc) (buildStockSnapshot g))
        (unionKeys_nodup _ _)
        (fun k hm => (mem_unionKeys_iff _ _ k).mpr (Or.inr hm)) i o l,
      isum_cell dLoc hwl (unionKeys (buildStockSnapshot dLoc) (buildStockSnapshot g))
        (unionKeys_nodup _ _)
        (fun k hm => (mem_unionKeys_iff _ _ k).mpr (Or.inl hm)) i o l]
    show stockGet dLoc.stock i o l +
        (stockGet g.stock i o l - stockGet dLoc.stock i o l) = stockGet g.stock i o l
    ring

/-- Scenario E, local side: 6 units of "Album X" at Seoul, bound to
ArtistA. -/
def dScenE : Doc :=
  { current_period := some "2024-03"
    periods := []
    stock := [("Album X", [("", [("Seoul", 6)])])]
    history := []
    item_metadata := [("Album X", { artist := "ArtistA", category := "album" })] }

/-- Scenario E, external side: the same cell at 9 units. -/
def gScenE : Doc :=
  { current_period := some "2024-03"
    periods := []
    stock := [("Album X", [("", [("Seoul", 9)])])]
    history := []
    item_metadata := [("Album X", { artist := "ArtistA", category := "album" })] }

/-- Witness for the amended C3 on Scenario E (local 6 vs external 9). -/
theorem syncPull_spec_witness :
    (StockWF dScenE.stock ∧ StockWF gScenE.stock ∧
      (gScenE.item_metadata.map Prod.fst).Nodup ∧
      (∀ k ∈ unionKeys (buildStockSnapshot dScenE) (buildStockSnapshot gScenE),
        (agetD (buildStockSnapshot gScenE) k snapDefault).qty -
            (agetD (buildStockSnapshot dScenE) k snapDefault).qty ≠ 0 →
        ¬((agetD (buildStockSnapshot gScenE) k snapDefault).artist = "" ∧
          (agetD (buildStockSnapshot dScenE) k snapDefault).artist = "")) ∧
      (∀ i ∈ gScenE.item_metadata.map Prod.fst,
        snapArtist gScenE i = "" ∨ snapArtist dScenE i = "" ∨
          snapArtist gScenE i = snapArtist dScenE i)) ∧
    ((∀ k, synthEntry (buildStockSnapshot dScenE) (buildStockSnapshot gScenE)
        "2024-03-02T10:00:00" "2024-03" "2024-03-02" "2024" "sync" k = none ↔
      (agetD (buildStockSnapshot gScenE) k snapDefault).qty =
        (agetD (buildStockSnapshot dScenE) k snapDefault).qty) ∧
    (∀ k, (agetD (buildStockSnapshot gScenE) k snapDefault).qty -
        (agetD (buildStockSnapshot dScenE) k snapDefault).qty ≠ 0 →
      ∃ e, synthEntry (buildStockSnapshot dScenE) (buildStockSnapshot gScenE)
          "2024-03-02T10:00:00" "2024-03" "2024-03-02" "2024" "sync" k = some e ∧
        e.type = (if (agetD (buildStockSnapshot gScenE) k snapDefault).qty -
            (agetD (buildStockSnapshot dScenE) k snapDefault).qty > 0
          then "in" else "out") ∧
        e.quantity = |(agetD (buildStockSnapshot gScenE) k snapDefault).qty -
            (agetD (buildStockSnapshot dScenE) k snapDefault).qty|) ∧
    (unionKeys (buildStockSnapshot dScenE) (buildStockSnapshot dScenE)).filterMap
      (synthEntry (buildStockSnapshot dScenE) (buildStockSnapshot dScenE)
        "2024-03-02T10:00:00" "2024-03" "2024-03-02" "2024" "sync") = [] ∧
    ∃ d2, syncPull dScenE gScenE "2024-03-02T10:00:00" "2024-03" "2024-03-02" "2024"
        "sync" =
        .ok (d2, ((unionKeys (buildStockSnapshot dScenE) (buildStockSnapshot gScenE)).filterMap
          (synthEntry (buildStockSnapshot dScenE) (buildStockSnapshot gScenE)
            "2024-03-02T10:00:00" "2024-03" "2024-03-02" "2024" "sync")).length) ∧
      d2.history = dScenE.history ++
        (unionKeys (buildStockSnapshot dScenE) (buildStockSnapshot gScenE)).filterMap
          (synthEntry (buildStockSnapshot dScenE) (buildStockSnapshot gScenE)
            "2024-03-02T10:00:00" "2024-03" "2024-03-02" "2024" "sync") ∧
      ∀ i o l, stockGet d2.stock i o l = stockGet gScenE.stock i o l) :=
  ⟨⟨by decide, by decide, by decide, by decide, by decide⟩,
    syncPull_spec dScenE gScenE "2024-03-02T10:00:00" "2024-03" "2024-03-02" "2024" "sync"
      (by decide) (by decide) (by decide) (by decide) (by decide)⟩

end Inv
